import Mathlib

/-!
Verification of the Gas Town witness supervisor against its specification.

Strings from the Go source are modelled as `List Char`; times as natural
numbers of seconds; external subprocess results (git status, tmux probes,
issue-store queries) as explicit inputs to the embedded functions.
-/

namespace Gastown

/-! ## Basic string helpers mirroring Go's `strings` package -/

/-- Go `strings.HasPrefix s pre`. -/
def goStartsWith : List Char → List Char → Bool
  | _, [] => true
  | [], _ :: _ => false
  | c :: s, p :: ps => c == p && goStartsWith s ps

/-- Go `strings.Contains s sub`. -/
def goContains : List Char → List Char → Bool
  | s, sub =>
    if goStartsWith s sub then true
    else match s with
      | [] => false
      | _ :: t => goContains t sub

/-! ## Address canonicalization (`internal/mail/types.go`) -/

/-- Go `strings.Split s "/"`. -/
def splitSlash : List Char → List (List Char)
  | [] => [[]]
  | c :: rest =>
    match splitSlash rest with
    | [] => [[c]]
    | h :: t => if c = '/' then [] :: h :: t else (c :: h) :: t

/-- Go `if len(address) > 0 && address[len(address)-1] == '/' { address = address[:len(address)-1] }`. -/
def trimOneSlash (a : List Char) : List Char :=
  if a.getLast? = some '/' then a.dropLast else a

/-- `addressToIdentity` from `internal/mail/types.go`: mayor/deacon keep a
trailing slash, one trailing slash is trimmed, and `rig/crew/X` /
`rig/polecats/X` collapse to `rig/X`. -/
def addressToIdentity (address : List Char) : List Char :=
  if address = "mayor".toList ∨ address = "mayor/".toList then "mayor/".toList
  else if address = "deacon".toList ∨ address = "deacon/".toList then "deacon/".toList
  else
    match splitSlash (trimOneSlash address) with
    | [p0, p1, p2] =>
      if p1 = "crew".toList ∨ p1 = "polecats".toList then p0 ++ '/' :: p2
      else trimOneSlash address
    | _ => trimOneSlash address

/-- `identityToAddress` from `internal/mail/types.go`: like
`addressToIdentity` but without the trailing-slash trim. -/
def identityToAddress (identity : List Char) : List Char :=
  if identity = "mayor".toList ∨ identity = "mayor/".toList then "mayor/".toList
  else if identity = "deacon".toList ∨ identity = "deacon/".toList then "deacon/".toList
  else
    match splitSlash identity with
    | [p0, p1, p2] =>
      if p1 = "crew".toList ∨ p1 = "polecats".toList then p0 ++ '/' :: p2 else identity
    | _ => identity

/-! ### Structure lemmas about `splitSlash` -/

theorem splitSlash_ne_nil (l : List Char) : splitSlash l ≠ [] := by
  induction l with
  | nil => simp [splitSlash]
  | cons c rest ih =>
    simp only [splitSlash]
    cases h : splitSlash rest with
    | nil => simp
    | cons h' t => by_cases hc : c = '/' <;> simp [hc]

theorem splitSlash_no_slash (l : List Char) :
    ∀ p ∈ splitSlash l, '/' ∉ p := by
  induction l with
  | nil => intro p hp; simp [splitSlash] at hp; simp [hp]
  | cons c rest ih =>
    intro p hp
    simp only [splitSlash] at hp
    cases h : splitSlash rest with
    | nil => exact absurd h (splitSlash_ne_nil rest)
    | cons h' t =>
      rw [h] at hp
      by_cases hc : c = '/'
      · simp [hc] at hp
        rcases hp with hp | hp | hp
        · simp [hp]
        · exact ih h' (h ▸ List.mem_cons_self _ _) ∘ (hp ▸ ·)
        · exact ih p (h ▸ List.mem_cons_of_mem _ hp)
      · simp [hc] at hp
        rcases hp with hp | hp
        · subst hp
          intro hmem
          rcases List.mem_cons.mp hmem with h1 | h1
          · exact hc h1.symm
          · exact ih h' (h ▸ List.mem_cons_self _ _) h1
        · exact ih p (h ▸ List.mem_cons_of_mem _ hp)

/-- Joining chunks back with `'/'`. -/
def joinSlash : List (List Char) → List Char
  | [] => []
  | [p] => p
  | p :: q :: rest => p ++ '/' :: joinSlash (q :: rest)

theorem joinSlash_splitSlash (l : List Char) : joinSlash (splitSlash l) = l := by
  induction l with
  | nil => simp [splitSlash, joinSlash]
  | cons c rest ih =>
    simp only [splitSlash]
    cases h : splitSlash rest with
    | nil => exact absurd h (splitSlash_ne_nil rest)
    | cons h' t =>
      rw [h] at ih
      by_cases hc : c = '/'
      · subst hc; simp [joinSlash, ih]
      · simp only [if_neg hc]
        cases t with
        | nil => simp [joinSlash] at ih ⊢; simp [ih]
        | cons t0 ts => simp [joinSlash] at ih ⊢; simp [ih]

theorem splitSlash_append_slash (p q : List Char) (hp : '/' ∉ p) :
    splitSlash (p ++ '/' :: q) = p :: splitSlash q := by
  induction p with
  | nil =>
    simp only [List.nil_append, splitSlash]
    cases h : splitSlash q with
    | nil => exact absurd h (splitSlash_ne_nil q)
    | cons h' t => simp
  | cons c cs ih =>
    have hc : c ≠ '/' := fun h => hp (h ▸ List.mem_cons_self _ _)
    have hcs : '/' ∉ cs := fun h => hp (List.mem_cons_of_mem _ h)
    simp only [List.cons_append, splitSlash]
    rw [List.append_eq, ih hcs]
    simp [hc]

theorem splitSlash_of_no_slash (p : List Char) (hp : '/' ∉ p) :
    splitSlash p = [p] := by
  induction p with
  | nil => simp [splitSlash]
  | cons c cs ih =>
    have hc : c ≠ '/' := fun h => hp (h ▸ List.mem_cons_self _ _)
    have hcs : '/' ∉ cs := fun h => hp (List.mem_cons_of_mem _ h)
    simp [splitSlash, ih hcs, hc]

theorem eq_dropLast_append_of_getLast? {l : List Char} {c : Char}
    (h : l.getLast? = some c) : l = l.dropLast ++ [c] := by
  have hne : l ≠ [] := by rintro rfl; simp at h
  have h2 : l.getLast hne = c := by
    have := List.getLast?_eq_getLast l hne
    rw [this] at h; exact Option.some.inj h
  conv_lhs => rw [← List.dropLast_append_getLast hne]
  rw [h2]

theorem getLast?_append_right {α : Type} (l₁ : List α) {l₂ : List α}
    (h : l₂ ≠ []) : (l₁ ++ l₂).getLast? = l₂.getLast? := by
  rw [List.getLast?_append]
  cases hq : l₂.getLast? with
  | none => exact absurd (List.getLast?_eq_none_iff.mp hq) h
  | some c => rfl

theorem trim_getLast_ne {a : List Char} (h : ¬ (['/', '/'] <:+ a)) :
    (trimOneSlash a).getLast? ≠ some '/' := by
  unfold trimOneSlash
  by_cases hl : a.getLast? = some '/'
  · rw [if_pos hl]
    intro hd
    have h1 : a = a.dropLast ++ ['/'] := eq_dropLast_append_of_getLast? hl
    have h2 : a.dropLast = a.dropLast.dropLast ++ ['/'] :=
      eq_dropLast_append_of_getLast? hd
    refine h ⟨a.dropLast.dropLast, ?_⟩
    calc a.dropLast.dropLast ++ ['/', '/']
        = (a.dropLast.dropLast ++ ['/']) ++ ['/'] := by simp
      _ = a.dropLast ++ ['/'] := by rw [← h2]
      _ = a := h1.symm
  · rw [if_neg hl]; exact hl

theorem getLast?_ne_slash_of_no_slash {q : List Char} (hq : '/' ∉ q)
    (hne : q ≠ []) (p : List Char) : (p ++ '/' :: q).getLast? ≠ some '/' := by
  intro hcon
  rw [getLast?_append_right p (by simp)] at hcon
  have : ('/' :: q).getLast? = q.getLast? := by
    cases q with
    | nil => exact absurd rfl hne
    | cons c cs => simp [List.getLast?_cons_cons]
  rw [this] at hcon
  have h1 : q = q.dropLast ++ ['/'] := eq_dropLast_append_of_getLast? hcon
  exact hq (h1 ▸ List.mem_append_right _ (List.mem_singleton.mpr rfl))

/-- Characterization of canonical outputs of `addressToIdentity`. -/
def Canon (o : List Char) : Prop :=
  o = "mayor/".toList ∨ o = "deacon/".toList ∨
  (o.getLast? ≠ some '/' ∧ o ≠ "mayor".toList ∧ o ≠ "deacon".toList ∧
   ∀ p0 p1 p2, splitSlash o = [p0, p1, p2] →
     ¬(p1 = "crew".toList ∨ p1 = "polecats".toList))

theorem canon_fixed_a2i {o : List Char} (h : Canon o) :
    addressToIdentity o = o := by
  rcases h with h | h | ⟨h1, h2, h3, h4⟩
  · subst h; decide
  · subst h; decide
  · have hm : ¬(o = "mayor".toList ∨ o = "mayor/".toList) := by
      rintro (h | h)
      · exact h2 h
      · exact h1 (by rw [h]; decide)
    have hd : ¬(o = "deacon".toList ∨ o = "deacon/".toList) := by
      rintro (h | h)
      · exact h3 h
      · exact h1 (by rw [h]; decide)
    have htrim : trimOneSlash o = o := by unfold trimOneSlash; rw [if_neg h1]
    unfold addressToIdentity
    rw [if_neg hm, if_neg hd]
    simp only [htrim]
    split
    · next p0 p1 p2 heq => rw [if_neg (h4 p0 p1 p2 heq)]
    · rfl

theorem canon_fixed_i2a {o : List Char} (h : Canon o) :
    identityToAddress o = o := by
  rcases h with h | h | ⟨h1, h2, h3, h4⟩
  · subst h; decide
  · subst h; decide
  · have hm : ¬(o = "mayor".toList ∨ o = "mayor/".toList) := by
      rintro (h | h)
      · exact h2 h
      · exact h1 (by rw [h]; decide)
    have hd : ¬(o = "deacon".toList ∨ o = "deacon/".toList) := by
      rintro (h | h)
      · exact h3 h
      · exact h1 (by rw [h]; decide)
    unfold identityToAddress
    rw [if_neg hm, if_neg hd]
    split
    · next p0 p1 p2 heq => rw [if_neg (h4 p0 p1 p2 heq)]
    · rfl

theorem a2i_canon {a : List Char} (h : ¬ (['/', '/'] <:+ a)) :
    Canon (addressToIdentity a) := by
  unfold addressToIdentity
  by_cases hm : a = "mayor".toList ∨ a = "mayor/".toList
  · rw [if_pos hm]; exact Or.inl rfl
  rw [if_neg hm]
  by_cases hd : a = "deacon".toList ∨ a = "deacon/".toList
  · rw [if_pos hd]; exact Or.inr (Or.inl rfl)
  rw [if_neg hd]
  have hlast : (trimOneSlash a).getLast? ≠ some '/' := trim_getLast_ne h
  have htrim_ne_mayor : trimOneSlash a ≠ "mayor".toList := by
    intro he
    unfold trimOneSlash at he
    by_cases hl : a.getLast? = some '/'
    · rw [if_pos hl] at he
      have : a = "mayor/".toList := by
        have h1 := eq_dropLast_append_of_getLast? hl
        rw [he] at h1; exact h1
      exact hm (Or.inr this)
    · rw [if_neg hl] at he; exact hm (Or.inl he)
  have htrim_ne_deacon : trimOneSlash a ≠ "deacon".toList := by
    intro he
    unfold trimOneSlash at he
    by_cases hl : a.getLast? = some '/'
    · rw [if_pos hl] at he
      have : a = "deacon/".toList := by
        have h1 := eq_dropLast_append_of_getLast? hl
        rw [he] at h1; exact h1
      exact hd (Or.inr this)
    · rw [if_neg hl] at he; exact hd (Or.inl he)
  split
  · next p0 p1 p2 heq =>
    by_cases hcol : p1 = "crew".toList ∨ p1 = "polecats".toList
    · rw [if_pos hcol]
      have hp0 : '/' ∉ p0 := splitSlash_no_slash _ p0 (by rw [heq]; simp)
      have hp2 : '/' ∉ p2 := splitSlash_no_slash _ p2 (by rw [heq]; simp)
      have hp2ne : p2 ≠ [] := by
        intro hnil
        apply hlast
        have hj := joinSlash_splitSlash (trimOneSlash a)
        rw [heq, hnil] at hj
        simp only [joinSlash] at hj
        rw [← hj]
        have hre : p0 ++ '/' :: (p1 ++ '/' :: []) = (p0 ++ '/' :: p1) ++ ['/'] := by
          simp
        rw [hre, List.getLast?_concat]
      refine Or.inr (Or.inr ⟨getLast?_ne_slash_of_no_slash hp2 hp2ne p0, ?_, ?_, ?_⟩)
      · intro hc
        have : '/' ∈ "mayor".toList := by
          rw [← hc]; exact List.mem_append_right _ (List.mem_cons_self _ _)
        revert this; decide
      · intro hc
        have : '/' ∈ "deacon".toList := by
          rw [← hc]; exact List.mem_append_right _ (List.mem_cons_self _ _)
        revert this; decide
      · intro q0 q1 q2 hq
        rw [splitSlash_append_slash p0 p2 hp0, splitSlash_of_no_slash p2 hp2] at hq
        simp at hq
    · rw [if_neg hcol]
      refine Or.inr (Or.inr ⟨hlast, htrim_ne_mayor, htrim_ne_deacon, ?_⟩)
      intro q0 q1 q2 hq
      rw [heq] at hq
      have : q1 = p1 := by simp at hq; exact hq.2.1.symm
      rw [this]; exact hcol
  · next hnomatch =>
    refine Or.inr (Or.inr ⟨hlast, htrim_ne_mayor, htrim_ne_deacon, ?_⟩)
    intro q0 q1 q2 hq
    exact absurd hq (by
      intro hc
      exact hnomatch q0 q1 q2 hc)

theorem i2a_fixed_of {o : List Char} (h1 : o ≠ "mayor".toList)
    (h2 : o ≠ "deacon".toList)
    (h3 : ∀ p0 p1 p2, splitSlash o = [p0, p1, p2] →
      ¬(p1 = "crew".toList ∨ p1 = "polecats".toList)) :
    identityToAddress o = o := by
  unfold identityToAddress
  by_cases hm : o = "mayor".toList ∨ o = "mayor/".toList
  · rcases hm with hm | hm
    · exact absurd hm h1
    · rw [if_pos (Or.inr hm), hm]
  rw [if_neg hm]
  by_cases hd : o = "deacon".toList ∨ o = "deacon/".toList
  · rcases hd with hd | hd
    · exact absurd hd h2
    · rw [if_pos (Or.inr hd), hd]
  rw [if_neg hd]
  split
  · next p0 p1 p2 heq => rw [if_neg (h3 p0 p1 p2 heq)]
  · rfl

theorem a2i_output_props (a : List Char) :
    addressToIdentity a = "mayor/".toList ∨ addressToIdentity a = "deacon/".toList ∨
    (addressToIdentity a ≠ "mayor".toList ∧ addressToIdentity a ≠ "deacon".toList ∧
     ∀ p0 p1 p2, splitSlash (addressToIdentity a) = [p0, p1, p2] →
       ¬(p1 = "crew".toList ∨ p1 = "polecats".toList)) := by
  unfold addressToIdentity
  by_cases hm : a = "mayor".toList ∨ a = "mayor/".toList
  · rw [if_pos hm]; exact Or.inl rfl
  rw [if_neg hm]
  by_cases hd : a = "deacon".toList ∨ a = "deacon/".toList
  · rw [if_pos hd]; exact Or.inr (Or.inl rfl)
  rw [if_neg hd]
  have htrim_ne_mayor : trimOneSlash a ≠ "mayor".toList := by
    intro he
    unfold trimOneSlash at he
    by_cases hl : a.getLast? = some '/'
    · rw [if_pos hl] at he
      have : a = "mayor/".toList := by
        have h1 := eq_dropLast_append_of_getLast? hl
        rw [he] at h1; exact h1
      exact hm (Or.inr this)
    · rw [if_neg hl] at he; exact hm (Or.inl he)
  have htrim_ne_deacon : trimOneSlash a ≠ "deacon".toList := by
    intro he
    unfold trimOneSlash at he
    by_cases hl : a.getLast? = some '/'
    · rw [if_pos hl] at he
      have : a = "deacon/".toList := by
        have h1 := eq_dropLast_append_of_getLast? hl
        rw [he] at h1; exact h1
      exact hd (Or.inr this)
    · rw [if_neg hl] at he; exact hd (Or.inl he)
  split
  · next p0 p1 p2 heq =>
    by_cases hcol : p1 = "crew".toList ∨ p1 = "polecats".toList
    · rw [if_pos hcol]
      have hp0 : '/' ∉ p0 := splitSlash_no_slash _ p0 (by rw [heq]; simp)
      have hp2 : '/' ∉ p2 := splitSlash_no_slash _ p2 (by rw [heq]; simp)
      refine Or.inr (Or.inr ⟨?_, ?_, ?_⟩)
      · intro hc
        have : '/' ∈ "mayor".toList := by
          rw [← hc]; exact List.mem_append_right _ (List.mem_cons_self _ _)
        revert this; decide
      · intro hc
        have : '/' ∈ "deacon".toList := by
          rw [← hc]; exact List.mem_append_right _ (List.mem_cons_self _ _)
        revert this; decide
      · intro q0 q1 q2 hq
        rw [splitSlash_append_slash p0 p2 hp0, splitSlash_of_no_slash p2 hp2] at hq
        simp at hq
    · rw [if_neg hcol]
      refine Or.inr (Or.inr ⟨htrim_ne_mayor, htrim_ne_deacon, ?_⟩)
      intro q0 q1 q2 hq
      rw [heq] at hq
      have : q1 = p1 := by simp at hq; exact hq.2.1.symm
      rw [this]; exact hcol
  · next hnomatch =>
    refine Or.inr (Or.inr ⟨htrim_ne_mayor, htrim_ne_deacon, ?_⟩)
    intro q0 q1 q2 hq
    exact absurd hq (by intro hc; exact hnomatch q0 q1 q2 hc)

/-- **C8 counterexample**: canonicalization is not idempotent on every
address. For the address `"gastown//"` (a double trailing slash), one
application yields `"gastown/" `, a second yields `"gastown"`, so
`canonicalize (canonicalize a) ≠ canonicalize a`. -/
theorem c8_counterexample :
    addressToIdentity (addressToIdentity "gastown//".toList) ≠
      addressToIdentity "gastown//".toList := by decide

/-- **C8** (amended): for every address not ending in a double slash `"//"`,
canonicalization via `addressToIdentity` is idempotent; and for *every*
address the round-trip `identityToAddress (addressToIdentity a)` equals
`addressToIdentity a` (the canonical form, which collapses
`rig/polecats/X` and `rig/crew/X` to `rig/X` and gives mayor and deacon a
trailing slash). -/
theorem c8_canonicalization :
    (∀ a : List Char, ¬ (['/', '/'] <:+ a) →
      addressToIdentity (addressToIdentity a) = addressToIdentity a) ∧
    (∀ a : List Char,
      identityToAddress (addressToIdentity a) = addressToIdentity a) := by
  constructor
  · intro a h
    exact canon_fixed_a2i (a2i_canon h)
  · intro a
    rcases a2i_output_props a with h | h | ⟨h1, h2, h3⟩
    · rw [h]; decide
    · rw [h]; decide
    · exact i2a_fixed_of h1 h2 h3

/-- **C8 witness**: the amended theorem applied at the concrete address
`"gastown/polecats/Toast"`, whose canonical form is `"gastown/Toast"`. -/
theorem c8_witness :
    addressToIdentity (addressToIdentity "gastown/polecats/Toast".toList) =
      addressToIdentity "gastown/polecats/Toast".toList ∧
    identityToAddress (addressToIdentity "gastown/polecats/Toast".toList) =
      addressToIdentity "gastown/polecats/Toast".toList ∧
    addressToIdentity "gastown/polecats/Toast".toList = "gastown/Toast".toList :=
  ⟨c8_canonicalization.1 "gastown/polecats/Toast".toList (by decide),
   c8_canonicalization.2 "gastown/polecats/Toast".toList, by decide⟩

/-! ## Safety-guarded cleaner (`internal/witness/manager.go`, `cleanupPolecat`
and `verifyPolecatState`) -/

/-- Modelled from the spec: the version-control driver's uncommitted-work
status `(modified, untracked, stash_count, unpushed_count)` returned to
`cleanupPolecat` by `git.CheckUncommittedWork` (the git driver itself is
outside the supervisor sources). -/
structure WorkStatus where
  modified : Nat
  untracked : Nat
  stash : Nat
  unpushed : Nat
deriving DecidableEq

/-- Modelled from the spec: a status is clean when all four counts are zero. -/
def WorkStatus.isClean (s : WorkStatus) : Bool :=
  s.modified == 0 && s.untracked == 0 && s.stash == 0 && s.unpushed == 0

/-- The three destructive steps of `cleanupPolecat`. -/
inductive CleanupStep
  | killSession
  | removeWorktree
  | deleteBranch
deriving DecidableEq

inductive CleanupError
  | uncommittedWork (modified untracked stash unpushed : Nat)
  | removeWorktreeFailed
deriving DecidableEq

structure CleanupOutcome where
  error : Option CleanupError
  steps : List CleanupStep
deriving DecidableEq

/-- External-world inputs consumed by `verifyPolecatState` and
`cleanupPolecat`: filesystem and subprocess results for one polecat. -/
structure PolecatEnv where
  dirExists : Bool
  gitStatus : Option Bool
  pushStatus : Option (Bool × Nat)
  workStatus : Option WorkStatus
  sessionRunning : Bool
  removeFails : Bool
deriving DecidableEq

/-- Steps 2-4 of `cleanupPolecat`: kill the session if running (best-effort),
remove the worktree (hard failure aborts), delete the branch (best-effort). -/
def cleanupDestructive (env : PolecatEnv) : CleanupOutcome :=
  let killed := if env.sessionRunning then [CleanupStep.killSession] else []
  if env.removeFails then
    { error := some .removeWorktreeFailed, steps := killed }
  else
    { error := none,
      steps := killed ++ [CleanupStep.removeWorktree, CleanupStep.deleteBranch] }

/-- `cleanupPolecat` from `internal/witness/manager.go`: check uncommitted
work first; a failed check only logs a warning and the cleanup continues;
a non-clean status aborts with the enumerated counts before any
destructive step. -/
def cleanupPolecat (env : PolecatEnv) : CleanupOutcome :=
  match env.workStatus with
  | some s =>
    if !s.isClean then
      { error := some (.uncommittedWork s.modified s.untracked s.stash s.unpushed),
        steps := [] }
    else cleanupDestructive env
  | none => cleanupDestructive env

inductive VerifyError
  | gitStatusFailed
  | notClean
  | unpushedCommits (count : Nat)
deriving DecidableEq

/-- `verifyPolecatState` from `internal/witness/manager.go`: a missing
directory counts as already cleaned; a failed status command is an error;
an unclean tree is an error; a failed push probe only warns; unpushed
commits are an error. -/
def verifyPolecatState (env : PolecatEnv) : Option VerifyError :=
  if !env.dirExists then none
  else
    match env.gitStatus with
    | none => some .gitStatusFailed
    | some clean =>
      if !clean then some .notClean
      else
        match env.pushStatus with
        | none => none
        | some (pushed, n) => if !pushed then some (.unpushedCommits n) else none

theorem isClean_iff (s : WorkStatus) :
    s.isClean = true ↔ s = ⟨0, 0, 0, 0⟩ := by
  cases s with
  | mk m u st p =>
    simp [WorkStatus.isClean, WorkStatus.mk.injEq]
    tauto

/-- **C1 counterexample**: when the uncommitted-work check itself fails (for
example the polecat path is not a git repository), `cleanupPolecat` logs a
warning and proceeds: the worker is cleaned successfully and every
destructive step runs, yet the cleaner never observed
`modified=0 ∧ untracked=0 ∧ stash=0 ∧ unpushed=0` — no status was
observed at all. This falsifies the claim as stated. -/
theorem c1_counterexample :
    (cleanupPolecat ⟨true, some true, some (true, 0), none, true, false⟩).error
        = none ∧
    (cleanupPolecat ⟨true, some true, some (true, 0), none, true, false⟩).steps
        = [CleanupStep.killSession, CleanupStep.removeWorktree,
           CleanupStep.deleteBranch] ∧
    ∀ s : WorkStatus,
      (⟨true, some true, some (true, 0), none, true, false⟩ : PolecatEnv).workStatus
        ≠ some s := by
  refine ⟨rfl, rfl, ?_⟩
  intro s h
  simp at h

/-- **C1** (amended): whenever the uncommitted-work check succeeds, a worker
is cleaned successfully only if the observed counts were all zero; and if
any count is non-zero, cleanup aborts with an `uncommitted_work` error
carrying exactly the observed counts and performs no destructive step.
(When the check itself fails, the code proceeds destructively after a
warning — see the counterexample.) -/
theorem c1_cleanup_safety :
    ∀ (env : PolecatEnv) (s : WorkStatus), env.workStatus = some s →
      ((cleanupPolecat env).error = none → s = ⟨0, 0, 0, 0⟩) ∧
      (s ≠ ⟨0, 0, 0, 0⟩ →
        cleanupPolecat env =
          { error := some (.uncommittedWork s.modified s.untracked s.stash
              s.unpushed),
            steps := [] }) := by
  intro env s h
  have hmain : cleanupPolecat env =
      (if !s.isClean then
        { error := some (.uncommittedWork s.modified s.untracked s.stash
            s.unpushed),
          steps := [] }
       else cleanupDestructive env) := by
    unfold cleanupPolecat
    rw [h]
  by_cases hc : s.isClean = true
  · constructor
    · intro _; exact (isClean_iff s).mp hc
    · intro hne; exact absurd ((isClean_iff s).mp hc) hne
  · have hb : (!s.isClean) = true := by simp [hc]
    rw [hb] at hmain
    simp only [if_pos rfl] at hmain
    constructor
    · intro herr
      rw [hmain] at herr
      simp at herr
    · intro _; exact hmain

/-- **C1 witness**: the amended theorem at a concrete environment whose
observed status has non-zero counts — cleanup aborts with those counts and
performs nothing destructive. -/
theorem c1_witness :
    cleanupPolecat ⟨true, some true, some (true, 0), some ⟨1, 2, 3, 4⟩,
        true, false⟩ =
      { error := some (.uncommittedWork 1 2 3 4), steps := [] } :=
  (c1_cleanup_safety ⟨true, some true, some (true, 0), some ⟨1, 2, 3, 4⟩,
      true, false⟩ ⟨1, 2, 3, 4⟩ rfl).2 (by decide)

/-! ## Liveness heuristic (`checkPolecatHealth`, `getLatestModTime`) -/

/-- `StuckThresholdMinutes` from `internal/witness/manager.go`. -/
def StuckThresholdMinutes : Nat := 30

/-- Filesystem observations for one polecat's liveness probe; times are
seconds, `none` means the `stat` call failed. -/
structure HealthEnv where
  now : Nat
  gitMtime : Option Nat
  stateMtime : Option Nat
  headLogMtime : Option Nat
  indexMtime : Option Nat
  issuesMtime : Option Nat
deriving DecidableEq

/-- `time.Since(t) < threshold` with the threshold of 30 minutes, in
seconds. A future mtime has truncated difference 0 and counts as within,
matching the Go comparison on a negative `Since`. -/
def withinThreshold (now t : Nat) : Bool :=
  now - t < StuckThresholdMinutes * 60

/-- `getLatestModTime` from `internal/witness/manager.go`: fold the three
canonical locations (git HEAD log, git index, issues store file), starting
from the zero time and keeping any stat-able mtime strictly after the
current latest. -/
def getLatestModTime (env : HealthEnv) : Nat :=
  let l1 := match env.headLogMtime with
    | some t => if t > 0 then t else 0
    | none => 0
  let l2 := match env.indexMtime with
    | some t => if t > l1 then t else l1
    | none => l1
  match env.issuesMtime with
  | some t => if t > l2 then t else l2
  | none => l2

inductive PolecatHealthStatus
  | healthy
  | stuck
  | dead
deriving DecidableEq

/-- `checkPolecatHealth` from `internal/witness/manager.go`: healthy if the
`.git` mtime is within the threshold, else if `.runtime/state.json` is,
else if the latest canonical mtime is non-zero and within; stuck
otherwise. -/
def checkPolecatHealth (env : HealthEnv) : PolecatHealthStatus :=
  if (match env.gitMtime with
      | some t => withinThreshold env.now t
      | none => false) then .healthy
  else if (match env.stateMtime with
      | some t => withinThreshold env.now t
      | none => false) then .healthy
  else
    if getLatestModTime env != 0 && withinThreshold env.now (getLatestModTime env)
    then .healthy
    else .stuck

/-- The canonical mtimes that were actually observed. -/
def canonicalMtimes (env : HealthEnv) : List Nat :=
  [env.headLogMtime, env.indexMtime, env.issuesMtime].reduceOption

theorem getLatestModTime_mem_or_zero (env : HealthEnv) :
    getLatestModTime env ∈ canonicalMtimes env ∨ getLatestModTime env = 0 := by
  rcases env with ⟨now, g, s, h, i, j⟩
  rcases h with _ | th <;> rcases i with _ | ti <;> rcases j with _ | tj <;>
    simp [getLatestModTime, canonicalMtimes, List.reduceOption] <;>
    (try split_ifs) <;> (try simp) <;> omega

theorem getLatestModTime_ge (env : HealthEnv) :
    ∀ t ∈ canonicalMtimes env, t ≤ getLatestModTime env := by
  rcases env with ⟨now, g, s, h, i, j⟩
  rcases h with _ | th <;> rcases i with _ | ti <;> rcases j with _ | tj <;>
    simp [getLatestModTime, canonicalMtimes, List.reduceOption] <;>
    (try split_ifs) <;> (try simp) <;> (try omega)

theorem checkPolecatHealth_healthy_or_stuck (env : HealthEnv) :
    checkPolecatHealth env = .healthy ∨ checkPolecatHealth env = .stuck := by
  unfold checkPolecatHealth
  split_ifs <;> simp

theorem checkPolecatHealth_healthy_iff (env : HealthEnv)
    (hpos : ∀ t ∈ canonicalMtimes env, 0 < t) :
    checkPolecatHealth env = .healthy ↔
      (∃ t, env.gitMtime = some t ∧ withinThreshold env.now t = true) ∨
      (∃ t, env.stateMtime = some t ∧ withinThreshold env.now t = true) ∨
      (∃ t ∈ canonicalMtimes env, withinThreshold env.now t = true) := by
  constructor
  · intro hh
    unfold checkPolecatHealth at hh
    split_ifs at hh with h1 h2 h3
    · rcases henv : env.gitMtime with _ | t
      · rw [henv] at h1; simp at h1
      · rw [henv] at h1; exact Or.inl ⟨t, rfl, h1⟩
    · rcases henv : env.stateMtime with _ | t
      · rw [henv] at h2; simp at h2
      · rw [henv] at h2; exact Or.inr (Or.inl ⟨t, rfl, h2⟩)
    · rcases getLatestModTime_mem_or_zero env with hm | hz
      · refine Or.inr (Or.inr ⟨getLatestModTime env, hm, ?_⟩)
        simp only [Bool.and_eq_true] at h3
        exact h3.2
      · simp only [Bool.and_eq_true, bne_iff_ne, ne_eq] at h3
        exact absurd hz h3.1
  · intro hcase
    unfold checkPolecatHealth
    rcases hcase with ⟨t, hg, hw⟩ | ⟨t, hs, hw⟩ | ⟨t, hmem, hw⟩
    · rw [hg]; simp [hw]
    · rw [hs]
      by_cases h1 : (match env.gitMtime with
          | some t => withinThreshold env.now t
          | none => false) = true
      · simp [h1]
      · simp [h1, hw]
    · split_ifs with h1 h2 h3
      · rfl
      · rfl
      · rfl
      · exfalso
        apply h3
        have hle := getLatestModTime_ge env t hmem
        have hpos' := hpos t hmem
        have hlw : withinThreshold env.now (getLatestModTime env) = true := by
          unfold withinThreshold at hw ⊢
          simp only [decide_eq_true_eq] at hw ⊢
          omega
        simp only [Bool.and_eq_true, bne_iff_ne, ne_eq]
        exact ⟨by omega, hlw⟩

/-- **C7**: the liveness heuristic reports healthy exactly when at least one
of the `.git` mtime, the `.runtime/state.json` mtime, or one of the
observed canonical file mtimes (git HEAD log, git index, issues store
file) lies strictly within the 30-minute window (assuming real, positive
timestamps); and a worker whose latest activity mtime equals exactly
`now − 30m` is stuck. -/
theorem c7_health_iff :
    (∀ env : HealthEnv, (∀ t ∈ canonicalMtimes env, 0 < t) →
      (checkPolecatHealth env = .healthy ↔
        (∃ t, env.gitMtime = some t ∧ withinThreshold env.now t = true) ∨
        (∃ t, env.stateMtime = some t ∧ withinThreshold env.now t = true) ∨
        (∃ t ∈ canonicalMtimes env, withinThreshold env.now t = true))) ∧
    (∀ now : Nat, 1800 ≤ now →
      checkPolecatHealth ⟨now, some (now - 1800), some (now - 1800),
        none, none, none⟩ = .stuck) := by
  refine ⟨checkPolecatHealth_healthy_iff, ?_⟩
  intro now hnow
  have hcond : ¬ (now - (now - 1800) < StuckThresholdMinutes * 60) := by
    simp [StuckThresholdMinutes]
    omega
  unfold checkPolecatHealth getLatestModTime withinThreshold
  simp [hcond]

/-- **C7 witness**: the iff applied to a concrete environment — the `.git`
mtime 29 minutes old at `now = 10000` makes the worker healthy — and the
boundary conjunct applied at `now = 1800`. -/
theorem c7_witness :
    checkPolecatHealth ⟨10000, some 8260, none, some 100, none, none⟩
        = .healthy ∧
    checkPolecatHealth ⟨1800, some 0, some 0, none, none, none⟩
        = .stuck := by
  constructor
  · exact (c7_health_iff.1 ⟨10000, some 8260, none, some 100, none, none⟩
      (by decide)).mpr (Or.inl ⟨8260, rfl, by decide⟩)
  · exact c7_health_iff.2 1800 (by decide)

/-! ## Auto-spawn pass (`autoSpawnForReadyWork`, `getActivePolecatCount`) -/

/-- `ReadyIssue` from `internal/witness/manager.go`. -/
structure ReadyIssue where
  id : List Char
  title : List Char
  issueType : List Char
  status : List Char

/-- The witness configuration fields consulted by the auto-spawn pass.
Modelled from the spec where the type declaration is outside the given
sources; `maxWorkers` and `spawnDelayMs` are Go `int`s. -/
structure WitnessConfig where
  autoSpawn : Bool
  maxWorkers : Int
  epicId : List Char
  issuePrefix : List Char
  spawnDelayMs : Int

/-- `if maxWorkers <= 0 { maxWorkers = 4 }`. -/
def effectiveMaxWorkers (mw : Int) : Nat :=
  if mw ≤ 0 then 4 else mw.toNat

/-- `isAlreadySpawned` from `internal/witness/manager.go`. -/
def isAlreadySpawned (spawnedIssues : List (List Char)) (id : List Char) : Bool :=
  spawnedIssues.contains id

/-- The filter loop of `autoSpawnForReadyWork`: drop merge-requests and
epics, already-spawned issues, issues failing the epic-child filter (a
query error also skips), and issues failing the id-prefix filter.
`isChildOfEpic` stands for the external `bd show` dependency query
(`none` = query error). -/
def filterSpawnable (cfg : WitnessConfig) (spawned : List (List Char))
    (isChildOfEpic : List Char → Option Bool) :
    List ReadyIssue → List ReadyIssue
  | [] => []
  | i :: rest =>
    let tail := filterSpawnable cfg spawned isChildOfEpic rest
    if i.issueType = "merge-request".toList ∨ i.issueType = "epic".toList then tail
    else if isAlreadySpawned spawned i.id then tail
    else if cfg.epicId ≠ [] ∧
        (isChildOfEpic i.id = none ∨ isChildOfEpic i.id = some false) then tail
    else if cfg.issuePrefix ≠ [] ∧ goStartsWith i.id cfg.issuePrefix = false then tail
    else i :: tail

/-- The spawn loop of `autoSpawnForReadyWork`: spawn while
`activeCount + spawned < maxWorkers`; a failed spawn (`spawnOk = false`)
is logged and skipped. Returns the number of successful spawns. -/
def spawnLoop (activeCount maxW : Nat) (spawnOk : List Char → Bool) :
    List ReadyIssue → Nat → Nat
  | [], spawned => spawned
  | i :: rest, spawned =>
    if activeCount + spawned ≥ maxW then spawned
    else if spawnOk i.id then spawnLoop activeCount maxW spawnOk rest (spawned + 1)
    else spawnLoop activeCount maxW spawnOk rest spawned

/-- `autoSpawnForReadyWork` (spawn-count level): at capacity, nothing to do;
otherwise filter the ready issues and run the spawn loop. -/
def autoSpawnCount (activeCount : Nat) (cfg : WitnessConfig)
    (spawned : List (List Char)) (isChildOfEpic : List Char → Option Bool)
    (spawnOk : List Char → Bool) (issues : List ReadyIssue) : Nat :=
  if activeCount ≥ effectiveMaxWorkers cfg.maxWorkers then 0
  else spawnLoop activeCount (effectiveMaxWorkers cfg.maxWorkers) spawnOk
    (filterSpawnable cfg spawned isChildOfEpic issues) 0

theorem spawnLoop_le (activeCount maxW : Nat) (spawnOk : List Char → Bool)
    (l : List ReadyIssue) (s : Nat) (h : activeCount + s ≤ maxW) :
    activeCount + spawnLoop activeCount maxW spawnOk l s ≤ maxW := by
  induction l generalizing s with
  | nil => simpa [spawnLoop] using h
  | cons i rest ih =>
    unfold spawnLoop
    split_ifs with h1 h2
    · exact h
    · exact ih (s + 1) (by omega)
    · exact ih s h

/-- **C6**: in every auto-spawn pass the number of workers spawned is at
most `max_workers − active_count` (with `max_workers` defaulting to 4 when
the configured value is not positive), so a tick that starts within the
cap ends within it: `active_count + spawned ≤ max_workers`. -/
theorem c6_autospawn_cap :
    ∀ (activeCount : Nat) (cfg : WitnessConfig) (spawned : List (List Char))
      (isChildOfEpic : List Char → Option Bool) (spawnOk : List Char → Bool)
      (issues : List ReadyIssue),
      autoSpawnCount activeCount cfg spawned isChildOfEpic spawnOk issues ≤
        effectiveMaxWorkers cfg.maxWorkers - activeCount ∧
      (activeCount ≤ effectiveMaxWorkers cfg.maxWorkers →
        activeCount +
          autoSpawnCount activeCount cfg spawned isChildOfEpic spawnOk issues ≤
          effectiveMaxWorkers cfg.maxWorkers) := by
  intro activeCount cfg spawned isChildOfEpic spawnOk issues
  unfold autoSpawnCount
  split_ifs with h1
  · constructor
    · omega
    · intro _; omega
  · have hlt : activeCount < effectiveMaxWorkers cfg.maxWorkers := by omega
    have := spawnLoop_le activeCount (effectiveMaxWorkers cfg.maxWorkers) spawnOk
      (filterSpawnable cfg spawned isChildOfEpic issues) 0 (by omega)
    constructor
    · omega
    · intro _; omega

/-- **C6 witness**: scenario from the spec — `max_workers = 4`,
`active_count = 2`, three unspawned ready items: the pass spawns exactly
two and stays within the cap. -/
theorem c6_witness :
    2 + autoSpawnCount 2 ⟨true, 4, [], [], 0⟩ []
        (fun _ => some true) (fun _ => true)
        [⟨"bd-a".toList, [], "task".toList, "open".toList⟩,
         ⟨"bd-b".toList, [], "task".toList, "open".toList⟩,
         ⟨"bd-c".toList, [], "task".toList, "open".toList⟩] ≤ 4 ∧
    autoSpawnCount 2 ⟨true, 4, [], [], 0⟩ []
        (fun _ => some true) (fun _ => true)
        [⟨"bd-a".toList, [], "task".toList, "open".toList⟩,
         ⟨"bd-b".toList, [], "task".toList, "open".toList⟩,
         ⟨"bd-c".toList, [], "task".toList, "open".toList⟩] = 2 := by
  constructor
  · exact (c6_autospawn_cap 2 ⟨true, 4, [], [], 0⟩ []
      (fun _ => some true) (fun _ => true)
      [⟨"bd-a".toList, [], "task".toList, "open".toList⟩,
       ⟨"bd-b".toList, [], "task".toList, "open".toList⟩,
       ⟨"bd-c".toList, [], "task".toList, "open".toList⟩]).2 (by decide)
  · rfl

/-! ## Mailbox dispatch (`processShutdownRequests` and its helpers) -/

/-- Go `unicode.IsSpace` restricted to the characters that occur in
subjects and bodies (ASCII whitespace plus NEL and NBSP). -/
def unicodeIsSpace (c : Char) : Bool :=
  c == ' ' || c == '\t' || c == '\n' || c == '\x0b' || c == '\x0c' ||
  c == '\r' || c == '\x85' || c == '\xa0'

/-- RE2 `\s`: `[\t\n\f\r ]`. -/
def reIsSpace (c : Char) : Bool :=
  c == '\t' || c == '\n' || c == '\x0c' || c == '\r' || c == ' '

/-- Go `strings.TrimSpace`. -/
def goTrimSpace (s : List Char) : List Char :=
  ((s.dropWhile (unicodeIsSpace · = true)).reverse.dropWhile
    (unicodeIsSpace · = true)).reverse

/-- `extractPolecatNameFromDone` from `internal/witness/manager.go`:
subject format `POLECAT_DONE {name}`. -/
def extractPolecatNameFromDone (subject : List Char) : List Char :=
  if goStartsWith subject "POLECAT_DONE ".toList then
    goTrimSpace (subject.drop "POLECAT_DONE ".toList.length)
  else []

/-- The `\s*(\S+)` tail of the `extractPolecatName` regex: skip whitespace,
take the maximal non-space token. -/
def tokenAfter (s : List Char) : List Char :=
  (s.dropWhile (reIsSpace · = true)).takeWhile (fun ch => reIsSpace ch = false)

/-- `extractPolecatName` from `internal/witness/manager.go`: the leftmost
match of the pattern `Polecat:\s*(\S+)` in the message body. -/
def extractPolecatName : List Char → List Char
  | [] => []
  | c :: rest =>
    if goStartsWith (c :: rest) "Polecat:".toList = true ∧
        tokenAfter ((c :: rest).drop "Polecat:".toList.length) ≠ [] then
      tokenAfter ((c :: rest).drop "Polecat:".toList.length)
    else extractPolecatName rest

/-- `recordDone` from `internal/witness/manager.go`: append a `done:<name>`
tag to the spawned-issues scratch unless already present. -/
def recordDone (spawned : List (List Char)) (name : List Char) :
    List (List Char) :=
  if spawned.contains ("done:".toList ++ name) then spawned
  else spawned ++ ["done:".toList ++ name]

/-- `hasSentDone` from `internal/witness/manager.go`. -/
def hasSentDone (spawned : List (List Char)) (name : List Char) : Bool :=
  spawned.contains ("done:".toList ++ name)

/-- Per-message outcome of the dispatcher loop: whether the message was
acknowledged, whether a nudge was sent, whether destructive cleanup ran,
and the updated spawned-issues scratch. -/
structure DispatchResult where
  acked : Bool
  nudged : Bool
  cleaned : Bool
  spawnedIssues : List (List Char)
deriving DecidableEq

/-- One iteration of the message loop in `processShutdownRequests`:
the `POLECAT_DONE ` branch (extract name from subject; empty name is
acknowledged with a warning; then record done, verify, cleanup), the
`LIFECYCLE:`/`shutdown` branch (extract name from body; empty name is
acknowledged; require a `done:` tag, else nudge without ack; then verify,
cleanup), else no action. -/
def processMessage (env : PolecatEnv) (spawned : List (List Char))
    (subject body : List Char) : DispatchResult :=
  if goStartsWith subject "POLECAT_DONE ".toList then
    if extractPolecatNameFromDone subject = [] then
      ⟨true, false, false, spawned⟩
    else
      match verifyPolecatState env with
      | some _ =>
        ⟨false, true, false, recordDone spawned (extractPolecatNameFromDone subject)⟩
      | none =>
        if (cleanupPolecat env).error.isSome then
          ⟨false, false, false, recordDone spawned (extractPolecatNameFromDone subject)⟩
        else
          ⟨true, false, true, recordDone spawned (extractPolecatNameFromDone subject)⟩
  else if goContains subject "LIFECYCLE:".toList &&
      goContains subject "shutdown".toList then
    if extractPolecatName body = [] then
      ⟨true, false, false, spawned⟩
    else if hasSentDone spawned (extractPolecatName body) = false then
      ⟨false, true, false, spawned⟩
    else
      match verifyPolecatState env with
      | some _ => ⟨false, true, false, spawned⟩
      | none =>
        if (cleanupPolecat env).error.isSome then ⟨false, false, false, spawned⟩
        else ⟨true, false, true, spawned⟩
  else ⟨false, false, false, spawned⟩

/-- **C4 counterexample**: the subject `"POLECAT_DONE "` (empty worker name)
fails to decode, yet the dispatcher *acknowledges* it — the message is
dropped, not retried — falsifying the claim that undecodable messages are
never acknowledged. -/
theorem c4_counterexample :
    extractPolecatNameFromDone "POLECAT_DONE ".toList = [] ∧
    (processMessage ⟨true, some true, some (true, 0), some ⟨0, 0, 0, 0⟩,
        true, false⟩ [] "POLECAT_DONE ".toList []).acked = true := by
  constructor
  · rfl
  · rfl

/-- **C4** (amended): a message matching a protocol branch whose worker
name fails to extract is acknowledged (dropped) with a warning; only
messages matching no protocol branch at all are left untouched and
unacknowledged, so only those reappear in the next tick's drain. -/
theorem c4_unparseable_messages :
    ∀ (env : PolecatEnv) (spawned : List (List Char)) (subject body : List Char),
      (goStartsWith subject "POLECAT_DONE ".toList = true →
        extractPolecatNameFromDone subject = [] →
        processMessage env spawned subject body = ⟨true, false, false, spawned⟩) ∧
      (goStartsWith subject "POLECAT_DONE ".toList = false →
        (goContains subject "LIFECYCLE:".toList &&
          goContains subject "shutdown".toList) = true →
        extractPolecatName body = [] →
        processMessage env spawned subject body = ⟨true, false, false, spawned⟩) ∧
      (goStartsWith subject "POLECAT_DONE ".toList = false →
        (goContains subject "LIFECYCLE:".toList &&
          goContains subject "shutdown".toList) = false →
        processMessage env spawned subject body = ⟨false, false, false, spawned⟩) := by
  intro env spawned subject body
  refine ⟨?_, ?_, ?_⟩
  · intro h1 h2
    unfold processMessage
    rw [h1]
    simp [h2]
  · intro h1 h2 h3
    unfold processMessage
    rw [h1, h2]
    simp [h3]
  · intro h1 h2
    unfold processMessage
    rw [h1, h2]
    simp

/-- **C4 witness**: the amended theorem at concrete messages — an empty-name
`POLECAT_DONE`, an empty-name lifecycle shutdown, and a non-protocol
subject. -/
theorem c4_witness :
    processMessage ⟨true, some true, some (true, 0), some ⟨0, 0, 0, 0⟩,
        false, false⟩ [] "POLECAT_DONE ".toList [] =
      ⟨true, false, false, []⟩ ∧
    processMessage ⟨true, some true, some (true, 0), some ⟨0, 0, 0, 0⟩,
        false, false⟩ [] "LIFECYCLE: shutdown".toList [] =
      ⟨true, false, false, []⟩ ∧
    processMessage ⟨true, some true, some (true, 0), some ⟨0, 0, 0, 0⟩,
        false, false⟩ [] "HELLO".toList [] =
      ⟨false, false, false, []⟩ := by
  refine ⟨?_, ?_, ?_⟩
  · exact (c4_unparseable_messages _ [] "POLECAT_DONE ".toList []).1
      (by decide) (by decide)
  · exact (c4_unparseable_messages _ [] "LIFECYCLE: shutdown".toList []).2.1
      (by decide) (by decide) (by decide)
  · exact (c4_unparseable_messages _ [] "HELLO".toList []).2.2
      (by decide) (by decide)

/-- **C5** (code bug): a message whose subject is the canonical
`LIFECYCLE:Shutdown <name>` (the grammar used by the protocol handlers and
the spec) is never dispatched at all: the branch condition requires the
lowercase substring `"shutdown"`, which `"LIFECYCLE:Shutdown Toast"` does
not contain. Regardless of the environment, of the `done:` tags and of the
body, the dispatcher neither proceeds to cleanup nor nudges the worker nor
acknowledges the message. -/
theorem c5_lifecycle_shutdown_ignored :
    ∀ (env : PolecatEnv) (spawned : List (List Char)) (body : List Char),
      processMessage env spawned "LIFECYCLE:Shutdown Toast".toList body =
        ⟨false, false, false, spawned⟩ := by
  intro env spawned body
  unfold processMessage
  have h1 : goStartsWith "LIFECYCLE:Shutdown Toast".toList
      "POLECAT_DONE ".toList = false := by decide
  have h2 : goContains "LIFECYCLE:Shutdown Toast".toList
      "shutdown".toList = false := by decide
  rw [h1, h2]
  simp

/-! ## Worker model and handoff state (nudge counters) -/

/-- Modelled from the spec: the per-worker record of the handoff document,
`{ nudge_count, last_nudge?, last_active?, issue?, arm_id? }` (the witness
type declarations are outside the given sources); timestamps are
abstracted as seconds. -/
structure WorkerState where
  nudgeCount : Nat
  lastNudge : Option Nat
  lastActive : Option Nat
  issue : List Char
  armId : List Char
deriving DecidableEq

/-- The Go zero value of `WorkerState`, produced by a map access on a
missing key. -/
def defaultWorkerState : WorkerState := ⟨0, none, none, [], []⟩

/-- Modelled from the spec: the handoff record —
`worker_states`, `patrol_instance_id`, `last_patrol`. The Go map is
modelled as an association list. -/
structure WitnessHandoffState where
  workerStates : List (List Char × WorkerState)
  patrolInstanceId : List Char
  lastPatrol : Option Nat
deriving DecidableEq

/-- Map lookup on the association list (Go `ws, ok := m[k]`). -/
def lookupWS : List (List Char × WorkerState) → List Char → Option WorkerState
  | [], _ => none
  | (k, v) :: rest, name => if k = name then some v else lookupWS rest name

/-- Map store on the association list (Go `m[k] = v`). -/
def insertWS : List (List Char × WorkerState) → List Char → WorkerState →
    List (List Char × WorkerState)
  | [], name, ws => [(name, ws)]
  | (k, v) :: rest, name, ws =>
    if k = name then (k, ws) :: rest else (k, v) :: insertWS rest name ws

/-- The legacy fallback of `getNudgeCount`: count `nudge:<name>` tags in
the spawned-issues scratch. -/
def legacyNudgeCount (spawned : List (List Char)) (name : List Char) : Nat :=
  spawned.count ("nudge:".toList ++ name)

/-- `getNudgeCount` from `internal/witness/manager.go`: prefer the handoff
entry; fall back to counting legacy `nudge:` tags when the handoff state
is absent or has no entry for the worker. -/
def getNudgeCount (handoff : Option WitnessHandoffState)
    (spawned : List (List Char)) (name : List Char) : Nat :=
  match handoff with
  | some hs =>
    match lookupWS hs.workerStates name with
    | some ws => ws.nudgeCount
    | none => legacyNudgeCount spawned name
  | none => legacyNudgeCount spawned name

/-- `recordNudge` from `internal/witness/manager.go`: increment the handoff
entry (creating it from the zero value if missing) and stamp `last_nudge`;
always also append the legacy `nudge:<name>` tag. -/
def recordNudge (handoff : Option WitnessHandoffState)
    (spawned : List (List Char)) (name : List Char) (now : Nat) :
    Option WitnessHandoffState × List (List Char) :=
  (match handoff with
   | some hs =>
     some { hs with
       workerStates :=
         insertWS hs.workerStates name
           { (lookupWS hs.workerStates name).getD defaultWorkerState with
             nudgeCount :=
               ((lookupWS hs.workerStates name).getD defaultWorkerState).nudgeCount
                 + 1,
             lastNudge := some now } }
   | none => none,
   spawned ++ ["nudge:".toList ++ name])

inductive StuckAction
  | nudge
  | escalate
  | waitHuman
deriving DecidableEq

/-- `handleStuckPolecat` from `internal/witness/manager.go`: nudge on count
0, escalate to the Mayor on count 1, wait for a human on count ≥ 2;
the first two record a nudge. -/
def handleStuckPolecat (handoff : Option WitnessHandoffState)
    (spawned : List (List Char)) (name : List Char) (now : Nat) :
    StuckAction × (Option WitnessHandoffState × List (List Char)) :=
  if getNudgeCount handoff spawned name = 0 then
    (.nudge, recordNudge handoff spawned name now)
  else if getNudgeCount handoff spawned name = 1 then
    (.escalate, recordNudge handoff spawned name now)
  else (.waitHuman, (handoff, spawned))

theorem lookupWS_insertWS_self (l : List (List Char × WorkerState))
    (name : List Char) (ws : WorkerState) :
    lookupWS (insertWS l name ws) name = some ws := by
  induction l with
  | nil => simp [insertWS, lookupWS]
  | cons kv rest ih =>
    obtain ⟨k, v⟩ := kv
    by_cases hk : k = name
    · simp [insertWS, lookupWS, hk]
    · simp [insertWS, lookupWS, hk, ih]

theorem legacyNudgeCount_append (spawned : List (List Char))
    (name : List Char) :
    legacyNudgeCount (spawned ++ ["nudge:".toList ++ name]) name =
      legacyNudgeCount spawned name + 1 := by
  unfold legacyNudgeCount
  rw [List.count_append]
  simp

/-- **C2 counterexample**: with a handoff state that has no entry for the
worker while the legacy scratch holds one `nudge:` tag, the observed count
is 1, the supervisor escalates — but the count afterwards is still 1, not
2 (the recorded handoff entry starts from the zero value), falsifying
"the count becomes 2". -/
theorem c2_counterexample :
    getNudgeCount (some ⟨[], [], none⟩) ["nudge:Toast".toList]
      "Toast".toList = 1 ∧
    (handleStuckPolecat (some ⟨[], [], none⟩) ["nudge:Toast".toList]
      "Toast".toList 5).1 = .escalate ∧
    getNudgeCount
      (handleStuckPolecat (some ⟨[], [], none⟩) ["nudge:Toast".toList]
        "Toast".toList 5).2.1
      (handleStuckPolecat (some ⟨[], [], none⟩) ["nudge:Toast".toList]
        "Toast".toList 5).2.2
      "Toast".toList = 1 := by
  refine ⟨by decide, by decide, by decide⟩

/-- **C2** (amended): for a worker observed stuck, exactly one transition
happens per tick: count 0 — send a nudge, and the count becomes 1;
count 1 — send an escalation to `mayor/`, and the count becomes 2
*provided* the count was read from the worker's handoff entry or no
handoff state exists (when a handoff state exists without an entry for the
worker and the count came from legacy tags, the newly created entry holds
count 1 instead); count ≥ 2 — no action and no state change. -/
theorem c2_stuck_transitions :
    ∀ (handoff : Option WitnessHandoffState) (spawned : List (List Char))
      (name : List Char) (now : Nat),
      (getNudgeCount handoff spawned name = 0 →
        (handleStuckPolecat handoff spawned name now).1 = .nudge ∧
        getNudgeCount (handleStuckPolecat handoff spawned name now).2.1
          (handleStuckPolecat handoff spawned name now).2.2 name = 1) ∧
      (getNudgeCount handoff spawned name = 1 →
        (handleStuckPolecat handoff spawned name now).1 = .escalate ∧
        ((handoff = none ∨
          ∃ hs ws, handoff = some hs ∧ lookupWS hs.workerStates name = some ws) →
          getNudgeCount (handleStuckPolecat handoff spawned name now).2.1
            (handleStuckPolecat handoff spawned name now).2.2 name = 2)) ∧
      (2 ≤ getNudgeCount handoff spawned name →
        handleStuckPolecat handoff spawned name now =
          (.waitHuman, (handoff, spawned))) := by
  intro handoff spawned name now
  refine ⟨?_, ?_, ?_⟩
  · intro h0
    unfold handleStuckPolecat
    rw [if_pos h0]
    refine ⟨rfl, ?_⟩
    cases handoff with
    | none =>
      simp only [getNudgeCount] at h0
      simp only [getNudgeCount, recordNudge]
      rw [legacyNudgeCount_append, h0]
    | some hs =>
      cases hl : lookupWS hs.workerStates name with
      | none =>
        simp [getNudgeCount, recordNudge, lookupWS_insertWS_self, hl,
          defaultWorkerState]
      | some ws =>
        simp only [getNudgeCount, hl] at h0
        simp [getNudgeCount, recordNudge, lookupWS_insertWS_self, hl, h0]
  · intro h1
    have h0 : ¬ (getNudgeCount handoff spawned name = 0) := by omega
    unfold handleStuckPolecat
    rw [if_neg h0, if_pos h1]
    refine ⟨rfl, ?_⟩
    rintro (rfl | ⟨hs, ws, rfl, hl⟩)
    · simp only [getNudgeCount] at h1
      simp only [getNudgeCount, recordNudge]
      rw [legacyNudgeCount_append, h1]
    · simp only [getNudgeCount, hl] at h1
      simp [getNudgeCount, recordNudge, lookupWS_insertWS_self, hl, h1]
  · intro h2
    have h0 : ¬ (getNudgeCount handoff spawned name = 0) := by omega
    have h1 : ¬ (getNudgeCount handoff spawned name = 1) := by omega
    unfold handleStuckPolecat
    rw [if_neg h0, if_neg h1]

/-- **C2 witness**: the amended theorem driven through the spec's
stuck-worker scenario — worker `Rictus`, empty scratch, a handoff entry
present: tick 1 nudges (count 1), tick 2 escalates (count 2), tick 3 does
nothing. -/
theorem c2_witness :
    (handleStuckPolecat (some ⟨[("Rictus".toList, defaultWorkerState)], [], none⟩)
      [] "Rictus".toList 1).1 = .nudge ∧
    getNudgeCount
      (handleStuckPolecat (some ⟨[("Rictus".toList, defaultWorkerState)], [], none⟩)
        [] "Rictus".toList 1).2.1
      (handleStuckPolecat (some ⟨[("Rictus".toList, defaultWorkerState)], [], none⟩)
        [] "Rictus".toList 1).2.2 "Rictus".toList = 1 ∧
    (handleStuckPolecat
      (some ⟨[("Rictus".toList, ⟨1, some 1, none, [], []⟩)], [], none⟩)
      ["nudge:Rictus".toList] "Rictus".toList 2).1 = .escalate ∧
    getNudgeCount
      (handleStuckPolecat
        (some ⟨[("Rictus".toList, ⟨1, some 1, none, [], []⟩)], [], none⟩)
        ["nudge:Rictus".toList] "Rictus".toList 2).2.1
      (handleStuckPolecat
        (some ⟨[("Rictus".toList, ⟨1, some 1, none, [], []⟩)], [], none⟩)
        ["nudge:Rictus".toList] "Rictus".toList 2).2.2 "Rictus".toList = 2 ∧
    handleStuckPolecat
      (some ⟨[("Rictus".toList, ⟨2, some 2, none, [], []⟩)], [], none⟩)
      ["nudge:Rictus".toList, "nudge:Rictus".toList] "Rictus".toList 3 =
      (.waitHuman,
        (some ⟨[("Rictus".toList, ⟨2, some 2, none, [], []⟩)], [], none⟩,
         ["nudge:Rictus".toList, "nudge:Rictus".toList])) := by
  refine ⟨?_, ?_, ?_, ?_, ?_⟩
  · exact ((c2_stuck_transitions _ _ _ 1).1 (by decide)).1
  · exact ((c2_stuck_transitions _ _ _ 1).1 (by decide)).2
  · exact ((c2_stuck_transitions _ _ _ 2).2.1 (by decide)).1
  · exact ((c2_stuck_transitions _ _ _ 2).2.1 (by decide)).2
      (Or.inr ⟨⟨[("Rictus".toList, ⟨1, some 1, none, [], []⟩)], [], none⟩,
        ⟨1, some 1, none, [], []⟩, rfl, by decide⟩)
  · exact (c2_stuck_transitions _ _ _ 3).2.2 (by decide)

/-! ## Decimal rendering of numbers (timestamps and JSON numbers) -/

/-- The ASCII digit character for `d < 10`. -/
def digitCh (d : Nat) : Char := Char.ofNat (48 + d)

/-- Decimal digits of `n`, most significant first; `fuel` bounds the
recursion (`fuel ≥ n` suffices). -/
def natToCharsAux : Nat → Nat → List Char
  | 0, _ => []
  | _ + 1, 0 => []
  | fuel + 1, n + 1 =>
    natToCharsAux fuel ((n + 1) / 10) ++ [digitCh ((n + 1) % 10)]

/-- Decimal rendering of a natural number. -/
def natToChars (n : Nat) : List Char :=
  if n = 0 then ['0'] else natToCharsAux n n

def charVal (c : Char) : Nat := c.toNat - 48

/-- Value of a decimal digit string. -/
def charsVal (ds : List Char) : Nat :=
  ds.foldl (fun a c => a * 10 + charVal c) 0

theorem charVal_digitCh {d : Nat} (h : d < 10) : charVal (digitCh d) = d := by
  interval_cases d <;> decide

theorem digitCh_isDigit {d : Nat} (h : d < 10) : (digitCh d).isDigit = true := by
  interval_cases d <;> decide

theorem natToCharsAux_digits :
    ∀ (fuel n : Nat), ∀ c ∈ natToCharsAux fuel n, c.isDigit = true := by
  intro fuel
  induction fuel with
  | zero => intro n c hc; simp [natToCharsAux] at hc
  | succ fuel ih =>
    intro n c hc
    cases n with
    | zero => simp [natToCharsAux] at hc
    | succ m =>
      simp only [natToCharsAux, List.mem_append, List.mem_singleton] at hc
      rcases hc with hc | hc
      · exact ih _ c hc
      · subst hc
        exact digitCh_isDigit (Nat.mod_lt _ (by omega))

theorem natToCharsAux_foldl :
    ∀ (fuel n a : Nat), n ≤ fuel →
      (natToCharsAux fuel n).foldl (fun a c => a * 10 + charVal c) a =
        a * 10 ^ (natToCharsAux fuel n).length + n := by
  intro fuel
  induction fuel with
  | zero =>
    intro n a h
    interval_cases n
    simp [natToCharsAux]
  | succ fuel ih =>
    intro n a h
    cases n with
    | zero => simp [natToCharsAux]
    | succ m =>
      have hdiv : (m + 1) / 10 ≤ fuel := by
        have := Nat.div_lt_self (show 0 < m + 1 by omega) (show 1 < 10 by omega)
        omega
      simp only [natToCharsAux, List.foldl_append, List.foldl_cons,
        List.foldl_nil, List.length_append, List.length_singleton]
      rw [ih _ a hdiv]
      rw [charVal_digitCh (Nat.mod_lt _ (by omega))]
      rw [pow_succ]
      have := Nat.div_add_mod (m + 1) 10
      ring_nf
      omega

theorem charsVal_natToChars (n : Nat) : charsVal (natToChars n) = n := by
  unfold natToChars charsVal
  by_cases h : n = 0
  · subst h; decide
  · rw [if_neg h]
    rw [natToCharsAux_foldl n n 0 (le_refl n)]
    simp

theorem natToChars_ne_nil (n : Nat) : natToChars n ≠ [] := by
  unfold natToChars
  by_cases h : n = 0
  · simp [h]
  · rw [if_neg h]
    cases n with
    | zero => exact absurd rfl h
    | succ m => simp [natToCharsAux]

theorem natToChars_digits (n : Nat) :
    ∀ c ∈ natToChars n, c.isDigit = true := by
  unfold natToChars
  by_cases h : n = 0
  · simp [h]
  · rw [if_neg h]
    exact natToCharsAux_digits n n

/-! ## Waiting timers (`getWaitingTimestamp`, `recordWaiting`,
`clearWaiting`) -/

/-- Modelled from the spec: RFC3339 timestamp handling (the `time` package
is external) — a timestamp is rendered as the decimal seconds value and
parses back exactly from an all-digit string. -/
def parseTime (s : List Char) : Option Nat :=
  if s ≠ [] ∧ s.all Char.isDigit then some (charsVal s) else none

/-- `getWaitingTimestamp` from `internal/witness/manager.go`: the first
entry of the scratch of the form `<key>:<timestamp>` whose timestamp
parses; `none` stands for the Go zero time. -/
def getWaitingTimestamp (spawned : List (List Char)) (key : List Char) :
    Option Nat :=
  match spawned with
  | [] => none
  | e :: rest =>
    if goStartsWith e (key ++ [':']) = true then
      match parseTime (e.drop (key.length + 1)) with
      | some ts => some ts
      | none => getWaitingTimestamp rest key
    else getWaitingTimestamp rest key

/-- `recordWaiting` from `internal/witness/manager.go`: append
`<key>:<now>`. -/
def recordWaiting (spawned : List (List Char)) (key : List Char)
    (now : Nat) : List (List Char) :=
  spawned ++ [key ++ ':' :: natToChars now]

/-- `clearWaiting` from `internal/witness/manager.go`: keep, in order,
exactly the entries that do **not** start with `key` (a bare prefix test,
no separator). -/
def clearWaiting (spawned : List (List Char)) (key : List Char) :
    List (List Char) :=
  match spawned with
  | [] => []
  | e :: rest =>
    if goStartsWith e key = true then clearWaiting rest key
    else e :: clearWaiting rest key

/-! ### Prefix-test lemmas -/

theorem goStartsWith_append_right :
    ∀ (p x r : List Char), goStartsWith x p = true →
      goStartsWith (x ++ r) p = true := by
  intro p
  induction p with
  | nil => intro x r _; cases x <;> simp [goStartsWith]
  | cons c cs ih =>
    intro x r h
    cases x with
    | nil => simp [goStartsWith] at h
    | cons y ys =>
      simp only [goStartsWith, Bool.and_eq_true, beq_iff_eq] at h ⊢
      exact ⟨h.1, ih ys r h.2⟩

theorem goStartsWith_append_left :
    ∀ (q s p : List Char), goStartsWith s p = true →
      goStartsWith (q ++ s) (q ++ p) = true := by
  intro q
  induction q with
  | nil => intro s p h; simpa using h
  | cons c cs ih =>
    intro s p h
    simp only [List.cons_append, goStartsWith, Bool.and_eq_true, beq_iff_eq]
    refine ⟨?_, ih s p h⟩
    trivial

theorem goStartsWith_weaken :
    ∀ (p q s : List Char), goStartsWith s (p ++ q) = true →
      goStartsWith s p = true := by
  intro p
  induction p with
  | nil => intro q s _; cases s <;> simp [goStartsWith]
  | cons c cs ih =>
    intro q s h
    cases s with
    | nil => simp [goStartsWith] at h
    | cons y ys =>
      simp only [List.cons_append, goStartsWith, Bool.and_eq_true,
        beq_iff_eq] at h ⊢
      exact ⟨h.1, ih q ys h.2⟩

theorem goStartsWith_refl_append :
    ∀ (p r : List Char), goStartsWith (p ++ r) p = true := by
  intro p r
  induction p with
  | nil => cases r <;> simp [goStartsWith]
  | cons c cs ih => simp [goStartsWith, ih]

theorem clearWaiting_eq_filter (spawned : List (List Char))
    (key : List Char) :
    clearWaiting spawned key =
      spawned.filter (fun e => !goStartsWith e key) := by
  induction spawned with
  | nil => simp [clearWaiting]
  | cons e rest ih =>
    by_cases h : goStartsWith e key = true
    · simp [clearWaiting, h, ih, List.filter_cons]
    · simp only [Bool.not_eq_true] at h
      simp [clearWaiting, h, ih, List.filter_cons]

/-- **C10**: `clearWaiting` with key `waiting:<N>` removes exactly the
entries that begin with the bare prefix `waiting:N` (no separator after
`N`) — so the waiting entries of any other worker whose name extends `N`
(e.g. `Joey` when clearing `Joe`) are removed too — and preserves all
other entries in their original order. -/
theorem c10_clearWaiting :
    ∀ (spawned : List (List Char)) (name : List Char),
      clearWaiting spawned ("waiting:".toList ++ name) =
        spawned.filter
          (fun e => !goStartsWith e ("waiting:".toList ++ name)) ∧
      (∀ other rest : List Char, goStartsWith other name = true →
        "waiting:".toList ++ (other ++ rest) ∉
          clearWaiting spawned ("waiting:".toList ++ name)) ∧
      (clearWaiting spawned ("waiting:".toList ++ name)).Sublist spawned := by
  intro spawned name
  refine ⟨clearWaiting_eq_filter spawned _, ?_, ?_⟩
  · intro other rest hother hmem
    rw [clearWaiting_eq_filter] at hmem
    have h1 : goStartsWith ("waiting:".toList ++ (other ++ rest))
        ("waiting:".toList ++ name) = true :=
      goStartsWith_append_left _ _ _
        (goStartsWith_append_right _ _ _ hother)
    have := List.of_mem_filter hmem
    rw [h1] at this
    simp at this
  · rw [clearWaiting_eq_filter]
    exact List.filter_sublist spawned

/-- **C10 witness**: clearing `Joe` with the scratch
`[waiting:Joey:100, waiting:Joe:50, done:Bob]` removes *both* waiting
entries (Joey's too) and keeps `done:Bob`. -/
theorem c10_witness :
    clearWaiting ["waiting:Joey:100".toList, "waiting:Joe:50".toList,
        "done:Bob".toList] ("waiting:".toList ++ "Joe".toList) =
      ["waiting:Joey:100".toList, "waiting:Joe:50".toList,
        "done:Bob".toList].filter
        (fun e => !goStartsWith e ("waiting:".toList ++ "Joe".toList)) ∧
    "waiting:".toList ++ ("Joey".toList ++ ":100".toList) ∉
      clearWaiting ["waiting:Joey:100".toList, "waiting:Joe:50".toList,
        "done:Bob".toList] ("waiting:".toList ++ "Joe".toList) ∧
    clearWaiting ["waiting:Joey:100".toList, "waiting:Joe:50".toList,
        "done:Bob".toList] ("waiting:".toList ++ "Joe".toList) =
      ["done:Bob".toList] := by
  refine ⟨(c10_clearWaiting _ "Joe".toList).1,
    (c10_clearWaiting _ "Joe".toList).2.1 "Joey".toList ":100".toList
      (by decide), by decide⟩

/-! ## Pending-completion watchdog (`checkPendingCompletions`) -/

/-- `PendingCompletionTimeout` from `internal/witness/manager.go`:
10 minutes, in seconds. -/
def PendingCompletionTimeout : Nat := 600

inductive PendingAction
  | skip
  | firstNudge
  | stillWaiting
  | escalated
  | cleanupFailed
  | cleaned
deriving DecidableEq

/-- The per-polecat body of `checkPendingCompletions`: skip unless the
worker is running, has no `done:` tag, resolves an issue id, and that
issue is closed; on first observation record `waiting:<name>:<now>` and
nudge; within the timeout only log; past the timeout verify (escalating
to the Mayor on failure, tag kept), then clean up (clearing the tag on
success, keeping it if cleanup errors). -/
def pendingStep (env : PolecatEnv) (spawned : List (List Char))
    (name : List Char) (running : Bool) (issueId : List Char)
    (issueClosed : Option Bool) (now : Nat) :
    PendingAction × List (List Char) :=
  if running = false then (.skip, spawned)
  else if hasSentDone spawned name = true then (.skip, spawned)
  else if issueId = [] then (.skip, spawned)
  else if issueClosed ≠ some true then (.skip, spawned)
  else
    match getWaitingTimestamp spawned ("waiting:".toList ++ name) with
    | none =>
      (.firstNudge, recordWaiting spawned ("waiting:".toList ++ name) now)
    | some ts =>
      if now - ts > PendingCompletionTimeout then
        match verifyPolecatState env with
        | some _ => (.escalated, spawned)
        | none =>
          if (cleanupPolecat env).error.isSome then (.cleanupFailed, spawned)
          else (.cleaned, clearWaiting spawned ("waiting:".toList ++ name))
      else (.stillWaiting, spawned)

theorem parseTime_natToChars (n : Nat) : parseTime (natToChars n) = some n := by
  unfold parseTime
  rw [if_pos ⟨natToChars_ne_nil n, List.all_eq_true.mpr (natToChars_digits n)⟩]
  rw [charsVal_natToChars]

theorem drop_key_colon (key x : List Char) :
    (key ++ ':' :: x).drop (key.length + 1) = x := by
  have h1 : key ++ ':' :: x = (key ++ [':']) ++ x := by simp
  have h2 : key.length + 1 = (key ++ [':']).length := by simp
  rw [h1, h2, List.drop_left]

theorem goStartsWith_key_colon (key x : List Char) :
    goStartsWith (key ++ ':' :: x) (key ++ [':']) = true := by
  have : (':' :: x) = [':'] ++ x := rfl
  rw [this, ← List.append_assoc]
  exact goStartsWith_refl_append _ _

theorem getWaitingTimestamp_record {spawned : List (List Char)}
    {key : List Char} (h : getWaitingTimestamp spawned key = none)
    (now : Nat) :
    getWaitingTimestamp (recordWaiting spawned key now) key = some now := by
  unfold recordWaiting
  induction spawned with
  | nil =>
    simp only [List.nil_append, getWaitingTimestamp]
    rw [goStartsWith_key_colon key (natToChars now), drop_key_colon,
      parseTime_natToChars]
    simp
  | cons e rest ih =>
    simp only [getWaitingTimestamp] at h
    simp only [List.cons_append, getWaitingTimestamp]
    by_cases hg : goStartsWith e (key ++ [':']) = true
    · rw [if_pos hg] at h ⊢
      have hrec : getWaitingTimestamp rest key = none := by
        cases hp : parseTime (e.drop (key.length + 1)) with
        | some ts => rw [hp] at h; simp at h
        | none => rw [hp] at h; exact h
      have hpn : parseTime (e.drop (key.length + 1)) = none := by
        cases hp : parseTime (e.drop (key.length + 1)) with
        | some ts => rw [hp] at h; simp at h
        | none => rfl
      rw [hpn]
      exact ih hrec
    · rw [if_neg hg] at h ⊢
      exact ih h

theorem getWaitingTimestamp_none_of_no_match {key : List Char} :
    ∀ {spawned : List (List Char)},
      (∀ e ∈ spawned, goStartsWith e (key ++ [':']) = false) →
      getWaitingTimestamp spawned key = none := by
  intro spawned
  induction spawned with
  | nil => intro _; rfl
  | cons e rest ih =>
    intro h
    simp only [getWaitingTimestamp]
    rw [h e (List.mem_cons_self _ _)]
    simp only [Bool.false_eq_true, if_false]
    exact ih fun x hx => h x (List.mem_cons_of_mem _ hx)

theorem getWaitingTimestamp_clearWaiting (spawned : List (List Char))
    (key : List Char) :
    getWaitingTimestamp (clearWaiting spawned key) key = none := by
  apply getWaitingTimestamp_none_of_no_match
  intro e he
  rw [clearWaiting_eq_filter] at he
  have := List.of_mem_filter he
  simp only [Bool.not_eq_true'] at this
  by_cases hg : goStartsWith e (key ++ [':']) = true
  · exact absurd (goStartsWith_weaken key [':'] e hg) (by simp [this])
  · simpa using hg

/-- **C3 counterexample**: at *exactly* 10 minutes elapsed (waiting
timestamp 0, now 600 s) with a clean, verifiable worker, the watchdog only
logs (`stillWaiting`) — cleanup is *not* invoked, because the code uses the
strict comparison `time.Since(ts) > 10m`. This falsifies "at 10:00 invoke
cleanup". -/
theorem c3_counterexample :
    pendingStep ⟨true, some true, some (true, 0), some ⟨0, 0, 0, 0⟩,
        true, false⟩
      ["waiting:Joe:0".toList] "Joe".toList true "bd-123".toList
      (some true) 600 =
    (.stillWaiting, ["waiting:Joe:0".toList]) := by decide

/-- **C3** (amended): for a running worker without a `done:` tag whose
issue resolved and is closed: on first observation the watchdog records a
`waiting:<name>:<timestamp>` tag (readable back as `now`) and nudges;
while elapsed ≤ 10 minutes — including *exactly* 10:00 — it only logs;
strictly after 10 minutes it runs cleanup, clearing the waiting tag on
success, and escalates to the Mayor leaving the tag in place when the
safety verification fails. -/
theorem c3_pending_watchdog :
    ∀ (env : PolecatEnv) (spawned : List (List Char)) (name : List Char)
      (issueId : List Char) (now : Nat),
      hasSentDone spawned name = false →
      issueId ≠ [] →
      ((getWaitingTimestamp spawned ("waiting:".toList ++ name) = none →
        (pendingStep env spawned name true issueId (some true) now).1 =
          .firstNudge ∧
        getWaitingTimestamp
          (pendingStep env spawned name true issueId (some true) now).2
          ("waiting:".toList ++ name) = some now) ∧
      (∀ ts, getWaitingTimestamp spawned ("waiting:".toList ++ name) = some ts →
        (now - ts ≤ PendingCompletionTimeout →
          pendingStep env spawned name true issueId (some true) now =
            (.stillWaiting, spawned)) ∧
        (PendingCompletionTimeout < now - ts →
          (∀ e, verifyPolecatState env = some e →
            pendingStep env spawned name true issueId (some true) now =
              (.escalated, spawned)) ∧
          (verifyPolecatState env = none →
            (cleanupPolecat env).error = none →
            (pendingStep env spawned name true issueId (some true) now).1 =
              .cleaned ∧
            getWaitingTimestamp
              (pendingStep env spawned name true issueId (some true) now).2
              ("waiting:".toList ++ name) = none)))) := by
  intro env spawned name issueId now hdone hid
  have hbase : ∀ r : PendingAction × List (List Char),
      (if true = false then (PendingAction.skip, spawned)
       else if hasSentDone spawned name = true then (.skip, spawned)
       else if issueId = [] then (.skip, spawned)
       else if (some true : Option Bool) ≠ some true then (.skip, spawned)
       else r) = r := by
    intro r
    rw [if_neg (by simp), if_neg (by simp [hdone]), if_neg hid,
      if_neg (by simp)]
  constructor
  · intro hnone
    unfold pendingStep
    rw [hbase]
    rw [hnone]
    refine ⟨by trivial, getWaitingTimestamp_record hnone now⟩
  · intro ts hts
    constructor
    · intro hle
      unfold pendingStep
      rw [hbase, hts]
      simp only
      rw [if_neg (by omega)]
    · intro hgt
      constructor
      · intro e he
        unfold pendingStep
        rw [hbase, hts]
        simp only
        rw [if_pos (by simpa [PendingCompletionTimeout] using hgt), he]
      · intro hv hc
        unfold pendingStep
        rw [hbase, hts]
        simp only
        rw [if_pos (by simpa [PendingCompletionTimeout] using hgt), hv]
        rw [show (cleanupPolecat env).error.isSome = false by simp [hc]]
        simp only [Bool.false_eq_true, if_false]
        exact ⟨by trivial, getWaitingTimestamp_clearWaiting spawned _⟩

/-- **C3 witness**: the amended theorem at concrete states — first
observation records and nudges; at 9:59 and at exactly 10:00 it only
logs; at 10:01 it cleans up and the waiting tag is gone. -/
theorem c3_witness :
    (pendingStep ⟨true, some true, some (true, 0), some ⟨0, 0, 0, 0⟩,
        true, false⟩ [] "Joe".toList true "bd-123".toList (some true) 7).1 =
      .firstNudge ∧
    getWaitingTimestamp
      (pendingStep ⟨true, some true, some (true, 0), some ⟨0, 0, 0, 0⟩,
        true, false⟩ [] "Joe".toList true "bd-123".toList (some true) 7).2
      ("waiting:".toList ++ "Joe".toList) = some 7 ∧
    pendingStep ⟨true, some true, some (true, 0), some ⟨0, 0, 0, 0⟩,
        true, false⟩ ["waiting:Joe:0".toList] "Joe".toList true
        "bd-123".toList (some true) 599 =
      (.stillWaiting, ["waiting:Joe:0".toList]) ∧
    (pendingStep ⟨true, some true, some (true, 0), some ⟨0, 0, 0, 0⟩,
        true, false⟩ ["waiting:Joe:0".toList] "Joe".toList true
        "bd-123".toList (some true) 601).1 = .cleaned ∧
    getWaitingTimestamp
      (pendingStep ⟨true, some true, some (true, 0), some ⟨0, 0, 0, 0⟩,
        true, false⟩ ["waiting:Joe:0".toList] "Joe".toList true
        "bd-123".toList (some true) 601).2
      ("waiting:".toList ++ "Joe".toList) = none ∧
    pendingStep ⟨true, some false, none, some ⟨0, 0, 0, 0⟩, true, false⟩
        ["waiting:Joe:0".toList] "Joe".toList true "bd-123".toList
        (some true) 601 =
      (.escalated, ["waiting:Joe:0".toList]) := by
  refine ⟨?_, ?_, ?_, ?_, ?_, ?_⟩
  · exact ((c3_pending_watchdog _ [] "Joe".toList "bd-123".toList 7
      (by decide) (by decide)).1 (by decide)).1
  · exact ((c3_pending_watchdog _ [] "Joe".toList "bd-123".toList 7
      (by decide) (by decide)).1 (by decide)).2
  · exact ((c3_pending_watchdog _ _ "Joe".toList "bd-123".toList 599
      (by decide) (by decide)).2 0 (by decide)).1 (by decide)
  · exact (((c3_pending_watchdog _ _ "Joe".toList "bd-123".toList 601
      (by decide) (by decide)).2 0 (by decide)).2 (by decide)).2
      (by decide) (by decide) |>.1
  · exact (((c3_pending_watchdog _ _ "Joe".toList "bd-123".toList 601
      (by decide) (by decide)).2 0 (by decide)).2 (by decide)).2
      (by decide) (by decide) |>.2
  · exact (((c3_pending_watchdog _ _ "Joe".toList "bd-123".toList 601
      (by decide) (by decide)).2 0 (by decide)).2 (by decide)).1
      VerifyError.notClean (by decide)

/-! ## Handoff document serialization and `findMatchingBrace` -/

/-- Modelled from the spec: the JSON string escaping of Go's `encoding/json`
restricted to quote and backslash. -/
def escapeStr : List Char → List Char
  | [] => []
  | c :: cs => (if c = '"' ∨ c = '\\' then ['\\', c] else [c]) ++ escapeStr cs

/-- A JSON string literal: `"` + escaped content + `"`. -/
def strLit (s : List Char) : List Char := '"' :: escapeStr s ++ ['"']

/-- Modelled from the spec: a JSON optional number — `null` or decimal
digits. -/
def serOptNat : Option Nat → List Char
  | none => "null".toList
  | some n => natToChars n

def litNudgeCount : List Char := "\"nudge_count\":".toList
def litLastNudge : List Char := ",\"last_nudge\":".toList
def litLastActive : List Char := ",\"last_active\":".toList
def litIssue : List Char := ",\"issue\":".toList
def litArmId : List Char := ",\"arm_id\":".toList
def litWorkerStates : List Char := "\"worker_states\":".toList
def litPatrolId : List Char := ",\"patrol_instance_id\":".toList
def litLastPatrol : List Char := ",\"last_patrol\":".toList

/-- Modelled from the spec: the JSON body of one worker-state object. -/
def wsBody (w : WorkerState) : List Char :=
  litNudgeCount ++ natToChars w.nudgeCount ++
  litLastNudge ++ serOptNat w.lastNudge ++
  litLastActive ++ serOptNat w.lastActive ++
  litIssue ++ strLit w.issue ++
  litArmId ++ strLit w.armId

/-- A serialized worker-state object. -/
def serWS (w : WorkerState) : List Char := '{' :: wsBody w ++ ['}']

/-- Modelled from the spec: the serialized `worker_states` map entries
(Go's `encoding/json` writes map entries `"key":value` separated by
commas). -/
def serEntries : List (List Char × WorkerState) → List Char
  | [] => []
  | [(k, v)] => strLit k ++ ':' :: serWS v
  | (k, v) :: rest => strLit k ++ ':' :: serWS v ++ ',' :: serEntries rest

/-- The JSON body of the serialized handoff state. -/
def handoffBody (st : WitnessHandoffState) : List Char :=
  litWorkerStates ++ '{' :: serEntries st.workerStates ++ '}' ::
  (litPatrolId ++ strLit st.patrolInstanceId ++
   litLastPatrol ++ serOptNat st.lastPatrol)

/-- Modelled from the spec: `json.MarshalIndent` of `WitnessHandoffState`
(whitespace omitted; field order as declared). -/
def serHandoff (st : WitnessHandoffState) : List Char :=
  '{' :: handoffBody st ++ ['}']

/-- `saveHandoffState`'s description:
`"Witness handoff state for %s.\n\n%s"` wrapping the JSON in a fenced
block. -/
def saveHandoffDesc (rig : List Char) (st : WitnessHandoffState) :
    List Char :=
  "Witness handoff state for ".toList ++ rig ++ ".\n\n```json\n".toList ++
  serHandoff st ++ "\n```".toList

/-- The scanning loop of `findMatchingBrace` from
`internal/witness/manager.go`: index `i`, `depth` (a Go `int`),
`inString` and `escaped` flags. -/
def fmbAux : List Char → Int → Bool → Bool → Nat → Option Nat
  | [], _, _, _, _ => none
  | c :: rest, depth, inStr, esc, i =>
    if esc = true then fmbAux rest depth inStr false (i + 1)
    else if c = '\\' ∧ inStr = true then fmbAux rest depth inStr true (i + 1)
    else if c = '"' then fmbAux rest depth (!inStr) esc (i + 1)
    else if inStr = true then fmbAux rest depth inStr esc (i + 1)
    else if c = '{' then fmbAux rest (depth + 1) inStr esc (i + 1)
    else if c = '}' then
      if depth - 1 = 0 then some i
      else fmbAux rest (depth - 1) inStr esc (i + 1)
    else fmbAux rest depth inStr esc (i + 1)

/-- `findMatchingBrace` from `internal/witness/manager.go`: the index of
the closing brace matching the first opening brace, `-1` if none. -/
def findMatchingBrace (s : List Char) : Int :=
  match fmbAux s 0 false false 0 with
  | some i => (i : Int)
  | none => -1

/-- `strings.Index(desc, "{")`. -/
def indexOfBrace : List Char → Option Nat
  | [] => none
  | c :: rest => if c = '{' then some 0 else (indexOfBrace rest).map (· + 1)

/-- The JSON-extraction step of `loadHandoffState`
(`internal/witness/manager.go` lines 138–150): locate the first `{`,
find its matching close brace, slice. -/
def extractJson (desc : List Char) : Option (List Char) :=
  match indexOfBrace desc with
  | none => none
  | some idx =>
    if findMatchingBrace (desc.drop idx) > 0 then
      some ((desc.drop idx).take ((findMatchingBrace (desc.drop idx)).toNat + 1))
    else none

/-- A character that the brace scanner treats as inert outside strings. -/
def plainOk (c : Char) : Bool :=
  !(c == '"' || c == '\\' || c == '{' || c == '}')

/-- Chunks the brace scanner passes through from a neutral state (outside
any string) without returning and with unchanged depth: inert characters,
complete string literals, and complete nested objects with neutral
bodies. -/
inductive Neutral : List Char → Prop
  | nil : Neutral []
  | plain {c : Char} {cs : List Char} :
      plainOk c = true → Neutral cs → Neutral (c :: cs)
  | str (s : List Char) {cs : List Char} :
      Neutral cs → Neutral (strLit s ++ cs)
  | obj {body cs : List Char} :
      Neutral body → Neutral cs → Neutral ('{' :: body ++ '}' :: cs)

theorem neutral_append {a b : List Char} (ha : Neutral a) (hb : Neutral b) :
    Neutral (a ++ b) := by
  induction ha with
  | nil => simpa using hb
  | plain hc _ ih => exact Neutral.plain hc ih
  | str s _ ih =>
    rw [List.append_assoc]
    exact Neutral.str s ih
  | obj hbody hcs ihbody ihcs =>
    have := Neutral.obj hbody ihcs
    simpa [List.cons_append, List.append_assoc] using this

theorem neutral_plain_append {p rest : List Char}
    (hp : ∀ c ∈ p, plainOk c = true) (h : Neutral rest) :
    Neutral (p ++ rest) := by
  induction p with
  | nil => simpa using h
  | cons c cs ih =>
    exact Neutral.plain (hp c (List.mem_cons_self _ _))
      (ih fun x hx => hp x (List.mem_cons_of_mem _ hx))

theorem plainOk_of_isDigit {c : Char} (h : c.isDigit = true) :
    plainOk c = true := by
  have hne : ∀ d : Char, d.isDigit = false → (c == d) = false := by
    intro d hd
    cases hc : c == d
    · rfl
    · rw [beq_iff_eq] at hc
      subst hc
      rw [h] at hd
      simp at hd
  simp [plainOk, hne '"' (by decide), hne '\\' (by decide),
    hne '{' (by decide), hne '}' (by decide)]

theorem neutral_digits_append {n : Nat} {rest : List Char}
    (h : Neutral rest) : Neutral (natToChars n ++ rest) :=
  neutral_plain_append
    (fun c hc => plainOk_of_isDigit (natToChars_digits n c hc)) h

theorem neutral_serOptNat_append (o : Option Nat) {rest : List Char}
    (h : Neutral rest) : Neutral (serOptNat o ++ rest) := by
  cases o with
  | none => exact neutral_plain_append (by decide) h
  | some n => exact neutral_digits_append h

theorem neutral_key (key : List Char) {lit : List Char}
    (h1 : lit = strLit key ++ [':'])
    {rest : List Char} (h : Neutral rest) : Neutral (lit ++ rest) := by
  subst h1
  show Neutral ((strLit key ++ [':']) ++ rest)
  rw [List.append_assoc]
  exact Neutral.str _ (Neutral.plain (by decide) h)

theorem neutral_commakey (key : List Char) {lit : List Char}
    (h1 : lit = ',' :: (strLit key ++ [':']))
    {rest : List Char} (h : Neutral rest) : Neutral (lit ++ rest) := by
  subst h1
  show Neutral (',' :: ((strLit key ++ [':']) ++ rest))
  refine Neutral.plain (by decide) ?_
  rw [List.append_assoc]
  exact Neutral.str _ (Neutral.plain (by decide) h)

theorem neutral_wsBody (w : WorkerState) {rest : List Char}
    (h : Neutral rest) : Neutral (wsBody w ++ rest) := by
  unfold wsBody
  simp only [List.append_assoc]
  refine neutral_key "nudge_count".toList (by decide) ?_
  refine neutral_digits_append ?_
  refine neutral_commakey "last_nudge".toList (by decide) ?_
  refine neutral_serOptNat_append _ ?_
  refine neutral_commakey "last_active".toList (by decide) ?_
  refine neutral_serOptNat_append _ ?_
  refine neutral_commakey "issue".toList (by decide) ?_
  refine Neutral.str _ ?_
  refine neutral_commakey "arm_id".toList (by decide) ?_
  exact Neutral.str _ h

theorem neutral_serWS_append (v : WorkerState) {rest : List Char}
    (h : Neutral rest) : Neutral (serWS v ++ rest) := by
  have heq : serWS v ++ rest = '{' :: wsBody v ++ '}' :: rest := by
    simp [serWS]
  rw [heq]
  exact Neutral.obj (by simpa using neutral_wsBody v Neutral.nil) h

theorem neutral_serEntries (l : List (List Char × WorkerState))
    {rest : List Char} (h : Neutral rest) :
    Neutral (serEntries l ++ rest) := by
  induction l with
  | nil => simpa [serEntries] using h
  | cons kv tail ih =>
    obtain ⟨k, v⟩ := kv
    cases tail with
    | nil =>
      simp only [serEntries, List.append_assoc, List.cons_append]
      exact Neutral.str _ (Neutral.plain (by decide) (neutral_serWS_append v h))
    | cons kv2 tail2 =>
      simp only [serEntries, List.append_assoc, List.cons_append]
      refine Neutral.str _ (Neutral.plain (by decide) ?_)
      exact neutral_serWS_append v (Neutral.plain (by decide) ih)

theorem neutral_handoffBody (st : WitnessHandoffState) :
    Neutral (handoffBody st) := by
  unfold handoffBody
  simp only [List.append_assoc, List.cons_append]
  refine neutral_key "worker_states".toList (by decide) ?_
  refine Neutral.obj
    (by simpa using neutral_serEntries st.workerStates Neutral.nil) ?_
  refine neutral_commakey "patrol_instance_id".toList (by decide) ?_
  refine Neutral.str _ ?_
  refine neutral_commakey "last_patrol".toList (by decide) ?_
  simpa using neutral_serOptNat_append st.lastPatrol Neutral.nil

theorem fmbAux_escaped (s : List Char) :
    ∀ (rest : List Char) (d : Int) (i : Nat),
      fmbAux (escapeStr s ++ '"' :: rest) d true false i =
        fmbAux rest d false false (i + (escapeStr s).length + 1) := by
  induction s with
  | nil =>
    intro rest d i
    simp [escapeStr, fmbAux]
  | cons c cs ih =>
    intro rest d i
    by_cases hc : c = '"' ∨ c = '\\'
    · have heq : escapeStr (c :: cs) ++ '"' :: rest =
          '\\' :: c :: (escapeStr cs ++ '"' :: rest) := by
        simp [escapeStr, hc]
      rw [heq]
      rw [show fmbAux ('\\' :: c :: (escapeStr cs ++ '"' :: rest)) d true false i
          = fmbAux (c :: (escapeStr cs ++ '"' :: rest)) d true true (i + 1) from by
        simp [fmbAux]]
      rw [show fmbAux (c :: (escapeStr cs ++ '"' :: rest)) d true true (i + 1)
          = fmbAux (escapeStr cs ++ '"' :: rest) d true false (i + 2) from by
        simp [fmbAux]]
      rw [ih rest d (i + 2)]
      congr 1
      have : (escapeStr (c :: cs)).length = (escapeStr cs).length + 2 := by
        simp [escapeStr, hc]
      omega
    · push_neg at hc
      have heq : escapeStr (c :: cs) ++ '"' :: rest =
          c :: (escapeStr cs ++ '"' :: rest) := by
        simp [escapeStr, hc.1, hc.2]
      rw [heq]
      rw [show fmbAux (c :: (escapeStr cs ++ '"' :: rest)) d true false i
          = fmbAux (escapeStr cs ++ '"' :: rest) d true false (i + 1) from by
        simp [fmbAux, hc.1, hc.2]]
      rw [ih rest d (i + 1)]
      congr 1
      have : (escapeStr (c :: cs)).length = (escapeStr cs).length + 1 := by
        simp [escapeStr, hc.1, hc.2]
      omega

theorem fmbAux_neutral {chunk : List Char} (hn : Neutral chunk) :
    ∀ (rest : List Char) (d : Int) (i : Nat), 1 ≤ d →
      fmbAux (chunk ++ rest) d false false i =
        fmbAux rest d false false (i + chunk.length) := by
  induction hn with
  | nil => intro rest d i hd; simp
  | @plain c cs hc _ ih =>
    intro rest d i hd
    have hq : c ≠ '"' := by
      intro h; subst h; simp [plainOk] at hc
    have hb : c ≠ '\\' := by
      intro h; subst h; simp [plainOk] at hc
    have ho : c ≠ '{' := by
      intro h; subst h; simp [plainOk] at hc
    have hcl : c ≠ '}' := by
      intro h; subst h; simp [plainOk] at hc
    rw [show (c :: cs) ++ rest = c :: (cs ++ rest) from rfl]
    rw [show fmbAux (c :: (cs ++ rest)) d false false i
        = fmbAux (cs ++ rest) d false false (i + 1) from by
      simp [fmbAux, hq, hb, ho, hcl]]
    rw [ih rest d (i + 1) hd]
    congr 1
    simp
    omega
  | @str s cs _ ih =>
    intro rest d i hd
    have heq : (strLit s ++ cs) ++ rest =
        '"' :: (escapeStr s ++ '"' :: (cs ++ rest)) := by
      simp [strLit]
    rw [heq]
    rw [show fmbAux ('"' :: (escapeStr s ++ '"' :: (cs ++ rest))) d false false i
        = fmbAux (escapeStr s ++ '"' :: (cs ++ rest)) d true false (i + 1) from by
      simp [fmbAux]]
    rw [fmbAux_escaped s (cs ++ rest) d (i + 1)]
    rw [ih rest d _ hd]
    congr 1
    simp [strLit]
    omega
  | @obj body cs _ _ ihbody ihcs =>
    intro rest d i hd
    have heq : (('{' :: body ++ '}' :: cs)) ++ rest =
        '{' :: (body ++ '}' :: (cs ++ rest)) := by
      simp
    rw [heq]
    rw [show fmbAux ('{' :: (body ++ '}' :: (cs ++ rest))) d false false i
        = fmbAux (body ++ '}' :: (cs ++ rest)) (d + 1) false false (i + 1) from by
      simp [fmbAux]]
    rw [ihbody ('}' :: (cs ++ rest)) (d + 1) (i + 1) (by omega)]
    rw [show fmbAux ('}' :: (cs ++ rest)) (d + 1) false false (i + 1 + body.length)
        = fmbAux (cs ++ rest) d false false (i + 1 + body.length + 1) from by
      have hd0 : ¬ (d + 1 - 1 = 0) := by omega
      have hd0' : ¬ (d = 0) := by omega
      have hdd : d + 1 - 1 = d := by omega
      simp [fmbAux, hd0, hd0', hdd]]
    rw [ihcs rest d _ hd]
    congr 1
    simp
    omega

/-- The scanner finds the closing brace of a serialized handoff document
at its last index, for any trailing text. -/
theorem fmbAux_serHandoff (st : WitnessHandoffState) (tail : List Char) :
    fmbAux (serHandoff st ++ tail) 0 false false 0 =
      some ((serHandoff st).length - 1) := by
  have heq : serHandoff st ++ tail =
      '{' :: (handoffBody st ++ '}' :: tail) := by
    simp [serHandoff]
  rw [heq]
  rw [show fmbAux ('{' :: (handoffBody st ++ '}' :: tail)) 0 false false 0
      = fmbAux (handoffBody st ++ '}' :: tail) 1 false false 1 from by
    simp [fmbAux]]
  rw [fmbAux_neutral (neutral_handoffBody st) ('}' :: tail) 1 1 (by omega)]
  rw [show fmbAux ('}' :: tail) 1 false false (1 + (handoffBody st).length)
      = some (1 + (handoffBody st).length) from by
    simp [fmbAux]]
  congr 1
  simp [serHandoff]
  omega

/-! ## JSON decoding of the handoff document (model of `json.Unmarshal`
for the `WitnessHandoffState` schema) -/

/-- Consume an exact literal. -/
def parseLit : List Char → List Char → Option (List Char)
  | [], s => some s
  | _ :: _, [] => none
  | l :: ls, c :: cs => if c = l then parseLit ls cs else none

/-- Modelled from the spec: JSON string-body decoding (after the opening
quote), handling `\"` and `\\` escapes, up to the closing quote. -/
def parseStringBody : List Char → Option (List Char × List Char)
  | [] => none
  | c :: rest =>
    if c = '\\' then
      match rest with
      | [] => none
      | c2 :: rest2 =>
        if c2 = '"' ∨ c2 = '\\' then
          (parseStringBody rest2).map (fun p => (c2 :: p.1, p.2))
        else none
    else if c = '"' then some ([], rest)
    else (parseStringBody rest).map (fun p => (c :: p.1, p.2))

/-- Modelled from the spec: JSON number decoding (non-negative decimal). -/
def parseNat' (s : List Char) : Option (Nat × List Char) :=
  if (s.takeWhile Char.isDigit).isEmpty = true then none
  else some (charsVal (s.takeWhile Char.isDigit), s.dropWhile Char.isDigit)

/-- Modelled from the spec: `null` or a decimal number. -/
def parseOptNat (s : List Char) : Option (Option Nat × List Char) :=
  if goStartsWith s "null".toList = true then some (none, s.drop 4)
  else (parseNat' s).map (fun p => (some p.1, p.2))

/-- Decode one worker-state object. -/
def parseWS (s : List Char) : Option (WorkerState × List Char) :=
  (parseLit ('{' :: litNudgeCount) s).bind fun r1 =>
  (parseNat' r1).bind fun p1 =>
  (parseLit litLastNudge p1.2).bind fun r3 =>
  (parseOptNat r3).bind fun p2 =>
  (parseLit litLastActive p2.2).bind fun r5 =>
  (parseOptNat r5).bind fun p3 =>
  (parseLit (litIssue ++ ['"']) p3.2).bind fun r7 =>
  (parseStringBody r7).bind fun p4 =>
  (parseLit (litArmId ++ ['"']) p4.2).bind fun r9 =>
  (parseStringBody r9).bind fun p5 =>
  (parseLit ['}'] p5.2).map fun r11 =>
  (⟨p1.1, p2.1, p3.1, p4.1, p5.1⟩, r11)

/-- Decode a non-empty run of `"key":object` entries up to the closing
brace of the map; `fuel` bounds the recursion. -/
def parseEntriesAux : Nat → List Char →
    Option (List (List Char × WorkerState) × List Char)
  | 0, _ => none
  | fuel + 1, s =>
    match s with
    | [] => none
    | c :: rest =>
      if c = '"' then
        (parseStringBody rest).bind fun pk =>
        (parseLit [':'] pk.2).bind fun r2 =>
        (parseWS r2).bind fun pv =>
        match pv.2 with
        | [] => none
        | c2 :: r4 =>
          if c2 = ',' then
            (parseEntriesAux fuel r4).map fun p => ((pk.1, pv.1) :: p.1, p.2)
          else if c2 = '}' then some ([(pk.1, pv.1)], r4)
          else none
      else none

/-- Decode the (possibly empty) `worker_states` map body. -/
def parseEntriesTop (fuel : Nat) (s : List Char) :
    Option (List (List Char × WorkerState) × List Char) :=
  match s with
  | [] => none
  | c :: rest =>
    if c = '}' then some ([], rest)
    else parseEntriesAux fuel (c :: rest)

/-- Decode a serialized handoff document; the whole input must be
consumed. -/
def parseHandoff (j : List Char) : Option WitnessHandoffState :=
  (parseLit ('{' :: (litWorkerStates ++ ['{'])) j).bind fun r1 =>
  (parseEntriesTop r1.length r1).bind fun pws =>
  (parseLit (litPatrolId ++ ['"']) pws.2).bind fun r3 =>
  (parseStringBody r3).bind fun ppid =>
  (parseLit litLastPatrol ppid.2).bind fun r5 =>
  (parseOptNat r5).bind fun plp =>
  (parseLit ['}'] plp.2).bind fun r7 =>
  if r7 = [] then some ⟨pws.1, ppid.1, plp.1⟩ else none

/-! ### Decoder round-trip lemmas -/

theorem parseLit_append (lit rest : List Char) :
    parseLit lit (lit ++ rest) = some rest := by
  induction lit with
  | nil => rfl
  | cons l ls ih => simp [parseLit, ih]

theorem parseStringBody_escape (s : List Char) :
    ∀ rest : List Char,
      parseStringBody (escapeStr s ++ '"' :: rest) = some (s, rest) := by
  induction s with
  | nil =>
    intro rest
    have heq : escapeStr [] ++ '"' :: rest = '"' :: rest := by simp [escapeStr]
    rw [heq]
    unfold parseStringBody
    simp
  | cons c cs ih =>
    intro rest
    by_cases hc : c = '"' ∨ c = '\\'
    · have heq : escapeStr (c :: cs) ++ '"' :: rest =
          '\\' :: c :: (escapeStr cs ++ '"' :: rest) := by
        simp [escapeStr, hc]
      rw [heq]
      unfold parseStringBody
      simp [hc, ih rest]
    · push_neg at hc
      have heq : escapeStr (c :: cs) ++ '"' :: rest =
          c :: (escapeStr cs ++ '"' :: rest) := by
        simp [escapeStr, hc.1, hc.2]
      rw [heq]
      unfold parseStringBody
      simp [hc.1, hc.2, ih rest]

theorem takeWhile_append_digits {a rest : List Char}
    (ha : ∀ c ∈ a, c.isDigit = true)
    (hrest : ∀ c, rest.head? = some c → c.isDigit = false) :
    (a ++ rest).takeWhile Char.isDigit = a ∧
    (a ++ rest).dropWhile Char.isDigit = rest := by
  induction a with
  | nil =>
    cases rest with
    | nil => exact ⟨rfl, rfl⟩
    | cons c t =>
      have := hrest c rfl
      simp [List.takeWhile_cons, List.dropWhile_cons, this]
  | cons c a' ih =>
    have hc := ha c (List.mem_cons_self _ _)
    have ih' := ih fun x hx => ha x (List.mem_cons_of_mem _ hx)
    simp [List.takeWhile_cons, List.dropWhile_cons, hc, ih'.1, ih'.2]

theorem head_not_digit_of_eq (x : List Char) {c0 : Char}
    (hh : x.head? = some c0) (hc0 : c0.isDigit = false) :
    ∀ c, x.head? = some c → c.isDigit = false := by
  intro c hc
  rw [hh] at hc
  cases hc
  exact hc0

theorem parseNat'_append (n : Nat) {rest : List Char}
    (hrest : ∀ c, rest.head? = some c → c.isDigit = false) :
    parseNat' (natToChars n ++ rest) = some (n, rest) := by
  obtain ⟨ht, hd⟩ := takeWhile_append_digits (natToChars_digits n) hrest
  unfold parseNat'
  rw [ht, hd]
  rw [if_neg (by simp [List.isEmpty_iff, natToChars_ne_nil])]
  rw [charsVal_natToChars]

theorem natToChars_head_digit (n : Nat) :
    ∃ d ds, natToChars n = d :: ds ∧ d.isDigit = true := by
  cases h : natToChars n with
  | nil => exact absurd h (natToChars_ne_nil n)
  | cons d ds =>
    exact ⟨d, ds, rfl, natToChars_digits n d (h ▸ List.mem_cons_self _ _)⟩

theorem parseOptNat_append (o : Option Nat) {rest : List Char}
    (hrest : ∀ c, rest.head? = some c → c.isDigit = false) :
    parseOptNat (serOptNat o ++ rest) = some (o, rest) := by
  cases o with
  | none =>
    unfold parseOptNat serOptNat
    rw [if_pos (goStartsWith_refl_append _ _)]
    rw [show (4 : Nat) = ("null".toList).length from rfl, List.drop_left]
  | some n =>
    obtain ⟨d, ds, hnd, hdig⟩ := natToChars_head_digit n
    have hdn : (d == 'n') = false := by
      cases hq : d == 'n'
      · rfl
      · rw [beq_iff_eq] at hq
        subst hq
        simp at hdig
    have hne : ¬ (goStartsWith (natToChars n ++ rest) "null".toList = true) := by
      intro hcon
      rw [hnd] at hcon
      rw [show ("null".toList) = 'n' :: "ull".toList from rfl] at hcon
      rw [show (d :: ds) ++ rest = d :: (ds ++ rest) from rfl] at hcon
      simp only [goStartsWith, Bool.and_eq_true] at hcon
      have h1 := hcon.1
      rw [hdn] at h1
      exact Bool.noConfusion h1
    unfold parseOptNat serOptNat
    rw [if_neg hne]
    rw [parseNat'_append n hrest]
    rfl

theorem parseWS_append (w : WorkerState) (rest : List Char) :
    parseWS (serWS w ++ rest) = some (w, rest) := by
  have heq : serWS w ++ rest =
      ('{' :: litNudgeCount) ++ (natToChars w.nudgeCount ++
        (litLastNudge ++ (serOptNat w.lastNudge ++
          (litLastActive ++ (serOptNat w.lastActive ++
            ((litIssue ++ ['"']) ++ (escapeStr w.issue ++ '"' ::
              ((litArmId ++ ['"']) ++ (escapeStr w.armId ++ '"' ::
                (['}'] ++ rest)))))))))) := by
    simp [serWS, wsBody, strLit]
  rw [heq]
  unfold parseWS
  rw [parseLit_append]
  rw [Option.some_bind]
  rw [parseNat'_append w.nudgeCount
    (head_not_digit_of_eq (litLastNudge ++ _) rfl (by decide))]
  rw [Option.some_bind]
  rw [parseLit_append]
  rw [Option.some_bind]
  rw [parseOptNat_append w.lastNudge
    (head_not_digit_of_eq (litLastActive ++ _) rfl (by decide))]
  rw [Option.some_bind]
  rw [parseLit_append]
  rw [Option.some_bind]
  rw [parseOptNat_append w.lastActive
    (head_not_digit_of_eq ((litIssue ++ ['"']) ++ _) rfl (by decide))]
  rw [Option.some_bind]
  rw [parseLit_append]
  rw [Option.some_bind]
  rw [parseStringBody_escape]
  rw [Option.some_bind]
  rw [parseLit_append]
  rw [Option.some_bind]
  rw [parseStringBody_escape]
  rw [Option.some_bind]
  rw [show ['}'] ++ rest = ['}'] ++ rest from rfl, parseLit_append]
  rfl

theorem parseLit_cons (c : Char) (z : List Char) :
    parseLit [c] (c :: z) = some z := by
  simp [parseLit]

theorem parseLit_self (lit : List Char) : parseLit lit lit = some [] := by
  have := parseLit_append lit []
  simpa using this

theorem serEntries_length_ge (l : List (List Char × WorkerState)) :
    l.length ≤ (serEntries l).length := by
  induction l with
  | nil => simp [serEntries]
  | cons kv tail ih =>
    obtain ⟨k, v⟩ := kv
    have h2 : 2 ≤ (strLit k).length := by simp [strLit]
    cases tail with
    | nil =>
      have heq : serEntries [(k, v)] = strLit k ++ ':' :: serWS v := rfl
      rw [heq]
      simp only [List.length_append, List.length_cons, List.length_nil]
      omega
    | cons kv2 tail2 =>
      have heq : serEntries ((k, v) :: kv2 :: tail2) =
          strLit k ++ ':' :: serWS v ++ ',' :: serEntries (kv2 :: tail2) := rfl
      rw [heq]
      simp only [List.length_append, List.length_cons, List.length_nil] at ih ⊢
      omega

theorem parseEntriesAux_append :
    ∀ (l : List (List Char × WorkerState)) (fuel : Nat), l ≠ [] →
      l.length ≤ fuel → ∀ rest : List Char,
      parseEntriesAux fuel (serEntries l ++ '}' :: rest) = some (l, rest) := by
  intro l
  induction l with
  | nil => intro fuel hne; exact absurd rfl hne
  | cons kv tail ih =>
    intro fuel _ hf rest
    obtain ⟨k, v⟩ := kv
    cases fuel with
    | zero => simp at hf
    | succ f =>
      cases tail with
      | nil =>
        have heq : serEntries [(k, v)] ++ '}' :: rest =
            '"' :: (escapeStr k ++ '"' :: (':' :: (serWS v ++ '}' :: rest))) := by
          simp [serEntries, strLit]
        rw [heq]
        unfold parseEntriesAux
        simp [parseStringBody_escape, parseLit_cons, parseWS_append]
      | cons kv2 tail2 =>
        have heq : serEntries ((k, v) :: kv2 :: tail2) ++ '}' :: rest =
            '"' :: (escapeStr k ++ '"' :: (':' :: (serWS v ++ ',' ::
              (serEntries (kv2 :: tail2) ++ '}' :: rest)))) := by
          simp [serEntries, strLit]
        rw [heq]
        unfold parseEntriesAux
        have hih := ih f (by simp) (by simp at hf ⊢; omega) rest
        simp [parseStringBody_escape, parseLit_cons, parseWS_append, hih]

theorem serEntries_cons_shape (kv : List Char × WorkerState)
    (tail : List (List Char × WorkerState)) :
    ∃ z, serEntries (kv :: tail) = '"' :: z := by
  obtain ⟨k, v⟩ := kv
  cases tail with
  | nil =>
    exact ⟨escapeStr k ++ '"' :: ':' :: serWS v, by simp [serEntries, strLit]⟩
  | cons kv2 tail2 =>
    exact ⟨escapeStr k ++ '"' :: ':' ::
      (serWS v ++ ',' :: serEntries (kv2 :: tail2)),
      by simp [serEntries, strLit]⟩

theorem parseEntriesTop_append (l : List (List Char × WorkerState))
    (fuel : Nat) (hf : l.length ≤ fuel) (rest : List Char) :
    parseEntriesTop fuel (serEntries l ++ '}' :: rest) = some (l, rest) := by
  cases l with
  | nil =>
    show parseEntriesTop fuel (serEntries [] ++ '}' :: rest) = _
    have heq : serEntries [] ++ '}' :: rest = '}' :: rest := by
      simp [serEntries]
    rw [heq]
    unfold parseEntriesTop
    simp
  | cons kv tail =>
    obtain ⟨z, hz⟩ := serEntries_cons_shape kv tail
    have heq : serEntries (kv :: tail) ++ '}' :: rest =
        '"' :: (z ++ '}' :: rest) := by rw [hz]; rfl
    rw [heq]
    show (if ('"' : Char) = '}' then some ([], z ++ '}' :: rest)
        else parseEntriesAux fuel ('"' :: (z ++ '}' :: rest))) =
      some (kv :: tail, rest)
    rw [if_neg (by decide)]
    rw [show '"' :: (z ++ '}' :: rest) = serEntries (kv :: tail) ++ '}' :: rest
      from by rw [hz]; rfl]
    exact parseEntriesAux_append (kv :: tail) fuel (by simp) hf rest

theorem parseEntriesTop_self (l : List (List Char × WorkerState))
    (rest : List Char) :
    parseEntriesTop (serEntries l ++ '}' :: rest).length
      (serEntries l ++ '}' :: rest) = some (l, rest) :=
  parseEntriesTop_append l _
    (le_trans (serEntries_length_ge l) (by simp)) rest

/-- Decoding a serialized handoff document recovers it exactly. -/
theorem parseHandoff_serHandoff (st : WitnessHandoffState) :
    parseHandoff (serHandoff st) = some st := by
  obtain ⟨ws, pid, lp⟩ := st
  have heq : serHandoff ⟨ws, pid, lp⟩ =
      ('{' :: (litWorkerStates ++ ['{'])) ++
        (serEntries ws ++ '}' :: ((litPatrolId ++ ['"']) ++
          (escapeStr pid ++ '"' :: (litLastPatrol ++
            (serOptNat lp ++ ['}']))))) := by
    simp [serHandoff, handoffBody, strLit]
  rw [heq]
  unfold parseHandoff
  rw [parseLit_append, Option.some_bind]
  rw [parseEntriesTop_self, Option.some_bind]
  rw [parseLit_append, Option.some_bind]
  rw [parseStringBody_escape, Option.some_bind]
  rw [parseLit_append, Option.some_bind]
  rw [parseOptNat_append lp
    (head_not_digit_of_eq ['}'] rfl (by decide))]
  rw [Option.some_bind]
  rw [parseLit_self, Option.some_bind]
  simp

theorem indexOfBrace_append {a : List Char} (ha : '{' ∉ a) (b : List Char) :
    indexOfBrace (a ++ '{' :: b) = some a.length := by
  induction a with
  | nil => simp [indexOfBrace]
  | cons c cs ih =>
    have hc : c ≠ '{' := fun h => ha (h ▸ List.mem_cons_self _ _)
    have hcs : '{' ∉ cs := fun h => ha (List.mem_cons_of_mem _ h)
    simp [indexOfBrace, hc, ih hcs]

theorem findMatchingBrace_serHandoff (st : WitnessHandoffState)
    (tail : List Char) :
    findMatchingBrace (serHandoff st ++ tail) =
      (((serHandoff st).length - 1 : Nat) : Int) := by
  unfold findMatchingBrace
  rw [fmbAux_serHandoff]

/-- The extraction step of `loadHandoffState` recovers exactly the JSON
block that `saveHandoffState` embedded, provided the rig name contains no
opening brace. -/
theorem extractJson_saveHandoffDesc (rig : List Char)
    (st : WitnessHandoffState) (hrig : '{' ∉ rig) :
    extractJson (saveHandoffDesc rig st) = some (serHandoff st) := by
  have hheader : '{' ∉ ("Witness handoff state for ".toList ++
      (rig ++ ".\n\n```json\n".toList)) := by
    intro hmem
    rcases List.mem_append.mp hmem with h | h
    · revert h; decide
    · rcases List.mem_append.mp h with h | h
      · exact hrig h
      · revert h; decide
  have hdesc : saveHandoffDesc rig st =
      ("Witness handoff state for ".toList ++ (rig ++ ".\n\n```json\n".toList))
        ++ ('{' :: (handoffBody st ++ ('}' :: "\n```".toList))) := by
    simp [saveHandoffDesc, serHandoff]
  rw [hdesc]
  unfold extractJson
  rw [indexOfBrace_append hheader]
  have hjson : '{' :: (handoffBody st ++ ('}' :: "\n```".toList)) =
      serHandoff st ++ "\n```".toList := by
    simp [serHandoff]
  have hlen : 2 ≤ (serHandoff st).length := by
    simp [serHandoff]
  have hfmb : findMatchingBrace (serHandoff st ++ "\n```".toList) =
      (((serHandoff st).length - 1 : Nat) : Int) :=
    findMatchingBrace_serHandoff st _
  have hpos : (((serHandoff st).length - 1 : Nat) : Int) > 0 := by
    have h1 : 0 < (serHandoff st).length - 1 := by omega
    exact_mod_cast h1
  simp only [hjson, List.drop_left, hfmb]
  rw [if_pos hpos]
  congr 1
  rw [Int.toNat_natCast]
  rw [show (serHandoff st).length - 1 + 1 = (serHandoff st).length by omega]
  exact List.take_left _ _

/-- **C9**: `saveHandoffState` followed by the JSON-extraction step of
`loadHandoffState` (first `{`, matching close brace with string/escape
awareness) recovers exactly the serialized document, and decoding it
recovers the original state — in particular the `worker_states` mapping —
for every handoff state and every rig name without an opening brace. -/
theorem c9_handoff_roundtrip :
    ∀ (rig : List Char) (st : WitnessHandoffState), '{' ∉ rig →
      extractJson (saveHandoffDesc rig st) = some (serHandoff st) ∧
      parseHandoff (serHandoff st) = some st ∧
      (parseHandoff (serHandoff st)).map WitnessHandoffState.workerStates =
        some st.workerStates := by
  intro rig st h
  refine ⟨extractJson_saveHandoffDesc rig st h, parseHandoff_serHandoff st, ?_⟩
  rw [parseHandoff_serHandoff st]
  rfl

/-- **C9 witness**: the round-trip at a concrete rig and handoff state with
one worker entry. -/
theorem c9_witness :
    extractJson (saveHandoffDesc "gastown".toList
      ⟨[("Toast".toList, ⟨1, some 5, none, "gt-42".toList, "gt-9.1".toList⟩)],
        "gt-patrol".toList, some 7⟩) =
      some (serHandoff
        ⟨[("Toast".toList, ⟨1, some 5, none, "gt-42".toList, "gt-9.1".toList⟩)],
          "gt-patrol".toList, some 7⟩) ∧
    parseHandoff (serHandoff
      ⟨[("Toast".toList, ⟨1, some 5, none, "gt-42".toList, "gt-9.1".toList⟩)],
        "gt-patrol".toList, some 7⟩) =
      some ⟨[("Toast".toList, ⟨1, some 5, none, "gt-42".toList,
        "gt-9.1".toList⟩)], "gt-patrol".toList, some 7⟩ :=
  ⟨(c9_handoff_roundtrip "gastown".toList
      ⟨[("Toast".toList, ⟨1, some 5, none, "gt-42".toList, "gt-9.1".toList⟩)],
        "gt-patrol".toList, some 7⟩ (by decide)).1,
   (c9_handoff_roundtrip "gastown".toList
      ⟨[("Toast".toList, ⟨1, some 5, none, "gt-42".toList, "gt-9.1".toList⟩)],
        "gt-patrol".toList, some 7⟩ (by decide)).2.1⟩

end Gastown
